import Mathlib

/-!
# libLAS point reader: `ReaderImpl` and `CachedReaderImpl`

A shallow embedding of `src/detail/reader/reader.cpp`.

* The input stream `m_ifs` is represented by its get position (a byte offset).
  The contents of the file are a function `file : Nat → P` giving the point
  that the point decoder produces when it starts decoding at a byte offset.
* Every member function becomes a function from the object state to an
  `Outcome`: a normal return, a C++ exception together with the state at the
  throw, or undefined behaviour (an out-of-bounds `std::vector::operator[]`
  or a call through the null `m_point_reader`).
* Counters and indices are natural numbers.  The conversions between
  `std::size_t`, `uint32_t` and `int32_t` that the source performs are value
  preserving for indices below `2^31`; the unsigned subtraction
  `header_size - m_cache_start_position` is modelled with its wrap-around, and
  the signed `cache_position` is an `Int`.
-/

namespace liblas.detail

/-- The three facts of `liblas::Header` the readers consult. -/
structure Header where
  /-- `GetPointRecordsCount()`. -/
  pointRecordsCount : Nat
  /-- `GetDataRecordLength()`. -/
  dataRecordLength : Nat
  /-- `GetDataOffset()`. -/
  dataOffset : Nat
deriving DecidableEq, Repr

/-- The exception classes thrown by the readers: `std::out_of_range` (the
spec's EndOfData) and `std::runtime_error` (OutOfRange, InvariantViolation,
CacheInconsistency). -/
inductive Exn where
  | out_of_range
  | runtime_error
deriving DecidableEq, Repr

/-- Result of running a member function on an object in state `σ`. -/
inductive Outcome (σ α : Type) where
  /-- Normal return with the final state. -/
  | ok (a : α) (s : σ)
  /-- An exception left the function; `s` is the state at that moment. -/
  | threw (e : Exn) (s : σ)
  /-- Undefined behaviour. -/
  | undefined
deriving DecidableEq, Repr

/-- Sequencing: run `f` on a normal return, propagate everything else. -/
def Outcome.bind {σ α β : Type} (r : Outcome σ α) (f : α → σ → Outcome σ β) : Outcome σ β :=
  match r with
  | .ok a s => f a s
  | .threw e s => .threw e s
  | .undefined => .undefined

/-- Byte offset of record `n`:
`static_cast<std::streamsize>(n) * header.GetDataRecordLength() + header.GetDataOffset()`. -/
def recordPos (header : Header) (n : Nat) : Nat :=
  n * header.dataRecordLength + header.dataOffset

/-- Data members of `ReaderImpl`. -/
structure ReaderImpl where
  /-- Get position of `m_ifs`. -/
  m_ifs : Nat
  m_size : Nat
  m_current : Nat
  /-- The point decoder with the header it was constructed with; `none` is the null pointer. -/
  m_point_reader : Option Header
deriving DecidableEq, Repr

/-- Constructor `ReaderImpl::ReaderImpl(ifs)`; `pos` is where the caller left the stream. -/
def ReaderImpl.construct (pos : Nat) : ReaderImpl :=
  { m_ifs := pos, m_size := 0, m_current := 0, m_point_reader := none }

/-- Modelled from the spec: `reader::Point::read` followed by `GetPoint` (the
RecordCodec, whose source is not part of this file): decodes the record that
starts at the current stream position and advances the stream by the record
length of the header the decoder is bound to.  Calling it through a null
`m_point_reader` is undefined. -/
def ReaderImpl.pointRead {P : Type} (file : Nat → P) (s : ReaderImpl) : Outcome ReaderImpl P :=
  match s.m_point_reader with
  | none => .undefined
  | some bound => .ok (file s.m_ifs) { s with m_ifs := s.m_ifs + bound.dataRecordLength }

/-- `ReaderImpl::Reset`. -/
def ReaderImpl.Reset (header : Header) (s : ReaderImpl) : ReaderImpl :=
  { m_ifs := 0
    m_current := 0
    m_size := header.pointRecordsCount
    m_point_reader :=
      match s.m_point_reader with
      | none => some header
      | some bound => some bound }

/-- `ReaderImpl::ReadHeader` on a plain `ReaderImpl`; `parsed` is the header
that `m_header_reader->read()` finds in the file. -/
def ReaderImpl.ReadHeader (parsed : Header) (s : ReaderImpl) : Outcome ReaderImpl Header :=
  .ok parsed (ReaderImpl.Reset parsed s)

/-- `ReaderImpl::ReadNextPoint`. -/
def ReaderImpl.ReadNextPoint {P : Type} (file : Nat → P) (header : Header) (s : ReaderImpl) :
    Outcome ReaderImpl P :=
  let s := if 0 = s.m_current then { s with m_ifs := header.dataOffset } else s
  if s.m_current < s.m_size then
    (ReaderImpl.pointRead file s).bind fun point s =>
      .ok point { s with m_current := s.m_current + 1 }
  else if s.m_current = s.m_size then
    .threw .out_of_range s
  else
    .threw .runtime_error s

/-- `ReaderImpl::ReadPointAt`. -/
def ReaderImpl.ReadPointAt {P : Type} (file : Nat → P) (n : Nat) (header : Header) (s : ReaderImpl) :
    Outcome ReaderImpl P :=
  if s.m_size = n then
    .threw .out_of_range s
  else if s.m_size < n then
    .threw .runtime_error s
  else
    let pos := recordPos header n
    ReaderImpl.pointRead file { s with m_ifs := pos }

/-- `ReaderImpl::Seek`. -/
def ReaderImpl.Seek (n : Nat) (header : Header) (s : ReaderImpl) : Outcome ReaderImpl Unit :=
  if s.m_size = n then
    .threw .out_of_range s
  else if s.m_size < n then
    .threw .runtime_error s
  else
    let pos := recordPos header n
    .ok () { s with m_ifs := pos, m_current := n + 1 }

/-- Data members of `CachedReaderImpl`, which derives from `ReaderImpl`. -/
structure CachedReaderImpl (P : Type) extends ReaderImpl where
  m_cache_size : Nat
  m_cache_start_position : Nat
  m_cache_read_position : Nat
  /-- The mask `m_mask`, one entry per point; `true` is the stored value 1. -/
  m_mask : List Bool
  m_cache : List P
deriving DecidableEq, Repr

/-- Constructor `CachedReaderImpl::CachedReaderImpl(ifs, size)`. -/
def CachedReaderImpl.construct {P : Type} (pos size : Nat) : CachedReaderImpl P :=
  { ReaderImpl.construct pos with
    m_cache_size := size
    m_cache_start_position := 0
    m_cache_read_position := 0
    m_mask := []
    m_cache := [] }

/-- Runs a `ReaderImpl::` member function on the base sub-object. -/
def CachedReaderImpl.base {P α : Type} (f : ReaderImpl → Outcome ReaderImpl α)
    (s : CachedReaderImpl P) : Outcome (CachedReaderImpl P) α :=
  match f s.toReaderImpl with
  | .ok a b => .ok a { s with toReaderImpl := b }
  | .threw e b => .threw e { s with toReaderImpl := b }
  | .undefined => .undefined

/-- Subtraction of two `size_type` values (64 bits), wrapping below zero. -/
def sizeSub (a b : Nat) : Nat :=
  (a + 2 ^ 64 - b) % 2 ^ 64

/-- The loop `for (i = 0; i < to_mark; ++i) m_mask[start + i] = 0;` with
`count` iterations left and loop variable `i`; `none` when an index is
outside the vector. -/
def clearMask (start : Nat) : Nat → Nat → List Bool → Option (List Bool)
  | 0, _, mask => some mask
  | count + 1, i, mask =>
    if start + i < mask.length then
      clearMask start count (i + 1) (mask.set (start + i) false)
    else
      none

/-- `std::vector::resize(n)` with default-constructed new elements. -/
def resize {P : Type} [Inhabited P] (v : List P) (n : Nat) : List P :=
  v.take n ++ List.replicate (n - v.length) default

/-- `CachedReaderImpl::Reset`. -/
def CachedReaderImpl.Reset {P : Type} (header : Header) (s : CachedReaderImpl P) :
    Outcome (CachedReaderImpl P) Unit :=
  if s.m_mask.length > 0 then
    let header_size := header.pointRecordsCount
    let left_to_cache := min s.m_cache_size (sizeSub header_size s.m_cache_start_position)
    let to_mark := max s.m_cache_size left_to_cache
    match clearMask s.m_cache_start_position to_mark 0 s.m_mask with
    | none => .undefined
    | some mask =>
      .ok () { s with
        toReaderImpl := ReaderImpl.Reset header s.toReaderImpl
        m_mask := mask
        m_cache_start_position := 0
        m_cache_read_position := 0 }
  else
    .ok () { s with toReaderImpl := ReaderImpl.Reset header s.toReaderImpl }

/-- `CachedReaderImpl::ReadHeader`.  The call `Reset(header)` inside
`ReaderImpl::ReadHeader` is a virtual call and reaches `CachedReaderImpl::Reset`. -/
def CachedReaderImpl.ReadHeader {P : Type} [Inhabited P] (parsed : Header) (s : CachedReaderImpl P) :
    Outcome (CachedReaderImpl P) Header :=
  (CachedReaderImpl.Reset parsed s).bind fun _ s =>
    let size := if s.m_cache_size = 0 then parsed.pointRecordsCount else s.m_cache_size
    let size := if size > parsed.pointRecordsCount then parsed.pointRecordsCount else size
    .ok parsed { s with
      m_cache_size := size
      m_cache := resize s.m_cache size
      m_mask := s.m_mask ++ List.replicate parsed.pointRecordsCount false }

/-- `CachedReaderImpl::Seek`. -/
def CachedReaderImpl.Seek {P : Type} (n : Nat) (header : Header) (s : CachedReaderImpl P) :
    Outcome (CachedReaderImpl P) Unit :=
  (if n < 1 then CachedReaderImpl.Reset header s else .ok () s).bind fun _ s =>
    CachedReaderImpl.base (ReaderImpl.Seek n header) { s with m_cache_read_position := n }

/-- The filling loop of `CachedReaderImpl::CacheData`,
`for (i = 0; i < left_to_cache; ++i) { try { m_mask[m_current] = 1;
m_cache[i] = ReaderImpl::ReadNextPoint(header); } catch (std::out_of_range&) { break; } }`,
with `count` iterations left and loop variable `i`. -/
def fillCache {P : Type} (file : Nat → P) (header : Header) :
    Nat → Nat → CachedReaderImpl P → Outcome (CachedReaderImpl P) Unit
  | 0, _, s => .ok () s
  | count + 1, i, s =>
    if s.m_current < s.m_mask.length then
      let s := { s with m_mask := s.m_mask.set s.m_current true }
      match CachedReaderImpl.base (ReaderImpl.ReadNextPoint file header) s with
      | .ok point s =>
        if i < s.m_cache.length then
          fillCache file header count (i + 1) { s with m_cache := s.m_cache.set i point }
        else
          .undefined
      | .threw .out_of_range s => .ok () s
      | .threw .runtime_error s => .threw .runtime_error s
      | .undefined => .undefined
    else
      .undefined

/-- `CachedReaderImpl::CacheData`. -/
def CachedReaderImpl.CacheData {P : Type} (file : Nat → P) (position : Nat) (header : Header)
    (s : CachedReaderImpl P) : Outcome (CachedReaderImpl P) Unit :=
  let old_cache_start_position := s.m_cache_start_position
  let s := { s with m_cache_start_position := position }
  let header_size := header.pointRecordsCount
  let left_to_cache := min s.m_cache_size (sizeSub header_size s.m_cache_start_position)
  let to_mark := max s.m_cache_size left_to_cache
  match clearMask old_cache_start_position to_mark 0 s.m_mask with
  | none => .undefined
  | some mask =>
    let s := { s with m_mask := mask }
    (if s.m_current ≠ position then
        (CachedReaderImpl.Seek position header s).bind fun _ s =>
          .ok () { s with m_current := position }
      else .ok () s).bind fun _ s =>
      fillCache file header left_to_cache 0 { s with m_cache_read_position := position }

/-- Element access `m_cache[cache_position]` with the signed index converted
to the vector's unsigned index type. -/
def cacheAt {P : Type} (cache : List P) (cache_position : Int) : Option P :=
  if 0 ≤ cache_position then cache[cache_position.toNat]? else none

/-- `CachedReaderImpl::ReadCachedPoint`. -/
def CachedReaderImpl.ReadCachedPoint {P : Type} (file : Nat → P) (position : Nat) (header : Header)
    (s : CachedReaderImpl P) : Outcome (CachedReaderImpl P) P :=
  let cache_position : Int := (position : Int) - (s.m_cache_start_position : Int)
  match s.m_mask[position]? with
  | none => .undefined
  | some true =>
    let s := { s with m_cache_read_position := position }
    match cacheAt s.m_cache cache_position with
    | none => .undefined
    | some point => .ok point s
  | some false =>
    (CachedReaderImpl.CacheData file position header s).bind fun _ s =>
      let cache_position : Int := (position : Int) - (s.m_cache_start_position : Int)
      if cache_position < 0 then
        .threw .runtime_error s
      else
        match s.m_mask[position]? with
        | none => .undefined
        | some true =>
          if cache_position.toNat > s.m_cache.length then
            .threw .runtime_error s
          else
            match cacheAt s.m_cache cache_position with
            | none => .undefined
            | some point => .ok point s
        | some false => .threw .runtime_error s

/-- `CachedReaderImpl::ReadNextPoint`. -/
def CachedReaderImpl.ReadNextPoint {P : Type} (file : Nat → P) (header : Header)
    (s : CachedReaderImpl P) : Outcome (CachedReaderImpl P) P :=
  if s.m_cache_read_position = s.m_size then
    .threw .out_of_range s
  else
    (CachedReaderImpl.ReadCachedPoint file s.m_cache_read_position header s).bind fun point s =>
      .ok point { s with m_cache_read_position := s.m_cache_read_position + 1 }

/-- `CachedReaderImpl::ReadPointAt`. -/
def CachedReaderImpl.ReadPointAt {P : Type} (file : Nat → P) (n : Nat) (header : Header)
    (s : CachedReaderImpl P) : Outcome (CachedReaderImpl P) P :=
  if n ≥ s.m_size then
    .threw .out_of_range s
  else if s.m_size < n then
    .threw .runtime_error s
  else
    (CachedReaderImpl.ReadCachedPoint file n header s).bind fun point s =>
      .ok point { s with m_cache_read_position := n }

/-- Calls `ReaderImpl::ReadNextPoint` `k` times in a row and collects the
points returned; stops at the first call that does not return. -/
def ReaderImpl.readNextTimes {P : Type} (file : Nat → P) (header : Header) :
    Nat → ReaderImpl → Outcome ReaderImpl (List P)
  | 0, s => .ok [] s
  | k + 1, s =>
    (ReaderImpl.ReadNextPoint file header s).bind fun point s =>
      (ReaderImpl.readNextTimes file header k s).bind fun points s => .ok (point :: points) s

/-- Calls `CachedReaderImpl::ReadNextPoint` `k` times in a row and collects
the points returned; stops at the first call that does not return. -/
def CachedReaderImpl.readNextTimes {P : Type} (file : Nat → P) (header : Header) :
    Nat → CachedReaderImpl P → Outcome (CachedReaderImpl P) (List P)
  | 0, s => .ok [] s
  | k + 1, s =>
    (CachedReaderImpl.ReadNextPoint file header s).bind fun point s =>
      (CachedReaderImpl.readNextTimes file header k s).bind fun points s => .ok (point :: points) s

/-- The example file used for concrete runs: header of three 20-byte records
starting at byte 100. -/
def exampleHeader : Header :=
  { pointRecordsCount := 3, dataRecordLength := 20, dataOffset := 100 }

/-- Contents of the example file: the point decoded at byte offset `p` is `p` itself. -/
def exampleFile : Nat → Nat := fun p => p

/-- A `CachedReaderImpl` constructed with cache size `size` on which
`ReadHeader` has been called once; `parsed` is the header found in the file. -/
def CachedReaderImpl.opened {P : Type} [Inhabited P] (parsed : Header) (size : Nat) :
    Outcome (CachedReaderImpl P) Header :=
  CachedReaderImpl.ReadHeader parsed (CachedReaderImpl.construct 0 size)

/-- The cache size after `ReadHeader`: the constructor argument, replaced by
the record count when it is zero or larger than the record count. -/
def clampedCacheSize (header : Header) (size : Nat) : Nat :=
  let size := if size = 0 then header.pointRecordsCount else size
  if size > header.pointRecordsCount then header.pointRecordsCount else size

/-- Shape of the cache state after `r` points of a purely sequential pass:
the window `[m_cache_start_position, m_current)` holds the records of its
indices, exactly its indices are marked, the read position `r` is inside it
or at its end, and the stream stands at record `m_current`. -/
def SeqInv {P : Type} (file : Nat → P) (header : Header) (cap r : Nat)
    (s : CachedReaderImpl P) : Prop :=
  s.m_size = header.pointRecordsCount ∧ s.m_point_reader = some header ∧
  s.m_cache_size = cap ∧ s.m_cache.length = cap ∧
  s.m_mask.length = header.pointRecordsCount ∧ s.m_cache_read_position = r ∧
  s.m_cache_start_position ≤ r ∧ r ≤ s.m_current ∧
  s.m_current ≤ header.pointRecordsCount ∧
  s.m_current ≤ s.m_cache_start_position + cap ∧
  (s.m_current < header.pointRecordsCount →
    s.m_cache_start_position + cap ≤ header.pointRecordsCount) ∧
  (s.m_current ≠ 0 → s.m_ifs = recordPos header s.m_current) ∧
  (∀ j, j < header.pointRecordsCount →
    s.m_mask[j]? = some (decide (s.m_cache_start_position ≤ j ∧ j < s.m_current))) ∧
  (∀ j, s.m_cache_start_position ≤ j → j < s.m_current →
    s.m_cache[j - s.m_cache_start_position]? = some (file (recordPos header j)))

/-- The cache reader opened on the example file with cache size 2. -/
def exampleCache : CachedReaderImpl Nat :=
  { m_ifs := 0, m_size := 3, m_current := 0, m_point_reader := some exampleHeader,
    m_cache_size := 2, m_cache_start_position := 0, m_cache_read_position := 0,
    m_mask := [false, false, false], m_cache := [0, 0] }

/-- Header of a file without point records. -/
def emptyHeader : Header :=
  { pointRecordsCount := 0, dataRecordLength := 20, dataOffset := 100 }

/-- Header of a file with ten 20-byte records starting at byte 100. -/
def tenHeader : Header :=
  { pointRecordsCount := 10, dataRecordLength := 20, dataOffset := 100 }

/-- The predicate `q` holds in the state a call ends in, whether the call
returned or threw; nothing is required of an undefined run. -/
def Outcome.Forall {σ α : Type} (q : σ → Prop) : Outcome σ α → Prop
  | .ok _ s => q s
  | .threw _ s => q s
  | .undefined => True

/-- The state a call ends in, when it returned or threw. -/
def Outcome.finalState {σ α : Type} : Outcome σ α → Option σ
  | .ok _ s => some s
  | .threw _ s => some s
  | .undefined => none

/-- The public operations of the cache reader that may follow `ReadHeader`. -/
inductive CachedOp where
  | readNext
  | readAt (n : Nat)
  | seek (n : Nat)
  | reset
deriving DecidableEq, Repr

/-- Runs one public operation, forgetting the value returned. -/
def CachedReaderImpl.apply {P : Type} (file : Nat → P) (header : Header) (op : CachedOp)
    (s : CachedReaderImpl P) : Outcome (CachedReaderImpl P) Unit :=
  match op with
  | .readNext => (CachedReaderImpl.ReadNextPoint file header s).bind fun _ s => .ok () s
  | .readAt n => (CachedReaderImpl.ReadPointAt file n header s).bind fun _ s => .ok () s
  | .seek n => CachedReaderImpl.Seek n header s
  | .reset => CachedReaderImpl.Reset header s

/-- Runs a sequence of public operations; an operation that throws leaves its
state to the next one (the caller caught the exception), undefined behaviour
ends the run. -/
def CachedReaderImpl.applyAll {P : Type} (file : Nat → P) (header : Header) :
    List CachedOp → CachedReaderImpl P → Option (CachedReaderImpl P)
  | [], s => some s
  | op :: ops, s =>
    match (CachedReaderImpl.apply file header op s).finalState with
    | none => none
    | some s => CachedReaderImpl.applyAll file header ops s

/-- The states of a cache reader constructed with cache size `size` that can
be reached from `ReadHeader` by public operations, each of which returned or
threw an exception that the caller caught. -/
inductive Reachable {P : Type} [Inhabited P] (file : Nat → P) (header : Header) (size : Nat) :
    CachedReaderImpl P → Prop where
  | opened (s : CachedReaderImpl P) :
      (CachedReaderImpl.opened header size).finalState = some s → Reachable file header size s
  | step (op : CachedOp) (s s' : CachedReaderImpl P) :
      Reachable file header size s →
      (CachedReaderImpl.apply file header op s).finalState = some s' →
      Reachable file header size s'

/-- What no member function of the base reader changes once the reader has
been reset for `header`: `m_size` stays or becomes the record count, an
existing point decoder is kept, and `m_current <= m_size` is kept. -/
def BaseFrame (header : Header) (b b' : ReaderImpl) : Prop :=
  (b'.m_size = b.m_size ∨ b'.m_size = header.pointRecordsCount) ∧
  (b.m_point_reader.isSome → b'.m_point_reader = b.m_point_reader) ∧
  (b.m_current ≤ b.m_size → b'.m_current ≤ b'.m_size)

/-- What no operation of the cache reader after `ReadHeader` changes: the
cache size, the lengths of the cache and of the mask, and the base frame. -/
def Frame {P : Type} (header : Header) (s s' : CachedReaderImpl P) : Prop :=
  s'.m_cache_size = s.m_cache_size ∧ s'.m_cache.length = s.m_cache.length ∧
  s'.m_mask.length = s.m_mask.length ∧ BaseFrame header s.toReaderImpl s'.toReaderImpl

/-- The sizes of an opened cache reader: `m_size` and the mask length are the
record count, the cache holds `cap` points, and the decoder exists. -/
def Shape {P : Type} (header : Header) (cap : Nat) (s : CachedReaderImpl P) : Prop :=
  s.m_size = header.pointRecordsCount ∧ s.m_point_reader.isSome ∧
  s.m_cache_size = cap ∧ s.m_cache.length = cap ∧
  s.m_mask.length = header.pointRecordsCount

/-- The sequential cursor of the base reader is in range: `m_current <= m_size`. -/
def InRange (b : ReaderImpl) : Prop :=
  b.m_current ≤ b.m_size

/-! ## Lemmas on the base reader -/

@[simp] theorem Outcome.bind_ok {σ α β : Type} (a : α) (s : σ) (f : α → σ → Outcome σ β) :
    (Outcome.ok a s).bind f = f a s := rfl

@[simp] theorem Outcome.bind_threw {σ α β : Type} (e : Exn) (s : σ) (f : α → σ → Outcome σ β) :
    (Outcome.threw e s : Outcome σ α).bind f = .threw e s := rfl

@[simp] theorem Outcome.bind_undefined {σ α β : Type} (f : α → σ → Outcome σ β) :
    (Outcome.undefined : Outcome σ α).bind f = .undefined := rfl

theorem recordPos_succ (header : Header) (k : Nat) :
    recordPos header k + header.dataRecordLength = recordPos header (k + 1) := by
  unfold recordPos
  ring

theorem recordPos_zero (header : Header) : recordPos header 0 = header.dataOffset := by
  simp [recordPos]

/-- One sequential read of the base reader from a synchronised state. -/
theorem ReaderImpl.ReadNextPoint_sync {P : Type} (file : Nat → P) (header bound : Header)
    (s : ReaderImpl) (hb : s.m_point_reader = some bound)
    (hl : bound.dataRecordLength = header.dataRecordLength)
    (hk : s.m_current < s.m_size) (hpos : s.m_current ≠ 0 → s.m_ifs = recordPos header s.m_current) :
    ReaderImpl.ReadNextPoint file header s =
      .ok (file (recordPos header s.m_current))
        { s with m_ifs := recordPos header (s.m_current + 1), m_current := s.m_current + 1 } := by
  by_cases h0 : s.m_current = 0
  · have h0' : 0 = s.m_current := h0.symm
    simp [ReaderImpl.ReadNextPoint, ReaderImpl.pointRead, h0', hk, hb, hl, ← recordPos_succ]
    simp [h0, recordPos_zero]
  · have h0' : ¬ (0 = s.m_current) := fun h => h0 h.symm
    simp [ReaderImpl.ReadNextPoint, ReaderImpl.pointRead, h0', hk, hb, hl, hpos h0,
      ← recordPos_succ]


/-- After `k` reads the base reader has consumed records `k .. k + j - 1` in order. -/
theorem ReaderImpl.readNextTimes_sync {P : Type} (file : Nat → P) (header bound : Header)
    (hl : bound.dataRecordLength = header.dataRecordLength) (j : Nat) :
    ∀ (s : ReaderImpl), s.m_point_reader = some bound → s.m_current + j ≤ s.m_size →
      (s.m_current ≠ 0 → s.m_ifs = recordPos header s.m_current) →
      ∃ s', ReaderImpl.readNextTimes file header j s =
          .ok ((List.range' s.m_current j).map fun i => file (recordPos header i)) s' ∧
        s'.m_current = s.m_current + j ∧ s'.m_size = s.m_size ∧
        s'.m_point_reader = some bound ∧
        (s'.m_current ≠ 0 → s'.m_ifs = recordPos header s'.m_current) := by
  induction j with
  | zero =>
    intro s hb _ hpos
    exact ⟨s, by simp [ReaderImpl.readNextTimes], by simp, rfl, hb, hpos⟩
  | succ j ih =>
    intro s hb hk hpos
    have hlt : s.m_current < s.m_size := by omega
    obtain ⟨s', h1, h2, h3, h4, h5⟩ :=
      ih { s with m_ifs := recordPos header (s.m_current + 1), m_current := s.m_current + 1 }
        hb (by simp; omega) (by simp)
    refine ⟨s', ?_, ?_, h3, h4, h5⟩
    · simp only [ReaderImpl.readNextTimes, ReaderImpl.ReadNextPoint_sync file header bound s hb hl hlt hpos,
        Outcome.bind_ok, h1, List.range', List.map_cons]
    · simp at h2; omega

/-- Random access of the base reader below `m_size` returns the record at `n`. -/
theorem ReaderImpl.ReadPointAt_sync {P : Type} (file : Nat → P) (n : Nat) (header bound : Header)
    (s : ReaderImpl) (hb : s.m_point_reader = some bound) (hn : n < s.m_size) :
    ∃ s', ReaderImpl.ReadPointAt file n header s = .ok (file (recordPos header n)) s' ∧
      s' = { s with m_ifs := recordPos header n + bound.dataRecordLength } := by
  have h1 : ¬ s.m_size = n := by omega
  have h2 : ¬ s.m_size < n := by omega
  simp [ReaderImpl.ReadPointAt, ReaderImpl.pointRead, h1, h2, hb]

/-! ## Lemmas on the cache loops -/

/-- The clearing loop stays inside the mask when its span does, and clears exactly that span. -/
theorem clearMask_spec (start : Nat) (count : Nat) :
    ∀ (i : Nat) (mask : List Bool), start + i + count ≤ mask.length →
      ∃ mask', clearMask start count i mask = some mask' ∧ mask'.length = mask.length ∧
        ∀ j, mask'[j]? =
          if start + i ≤ j ∧ j < start + i + count then some false else mask[j]? := by
  induction count with
  | zero =>
    intro i mask _
    refine ⟨mask, rfl, rfl, ?_⟩
    intro j
    have : ¬ (start + i ≤ j ∧ j < start + i + 0) := by omega
    rw [if_neg this]
  | succ count ih =>
    intro i mask hlen
    have hlt : start + i < mask.length := by omega
    obtain ⟨mask', h1, h2, h3⟩ := ih (i + 1) (mask.set (start + i) false)
      (by rw [List.length_set]; omega)
    refine ⟨mask', ?_, ?_, ?_⟩
    · simp [clearMask, hlt, h1]
    · rw [h2, List.length_set]
    · intro j
      rw [h3 j, List.getElem?_set]
      by_cases hj : start + i = j
      · subst hj
        have a1 : ¬ (start + (i + 1) ≤ start + i ∧ start + i < start + (i + 1) + count) := by omega
        have a2 : start + i ≤ start + i ∧ start + i < start + i + (count + 1) := by omega
        rw [if_neg a1, if_pos a2, if_pos rfl, if_pos hlt]
      · by_cases hr : start + (i + 1) ≤ j ∧ j < start + (i + 1) + count
        · have a2 : start + i ≤ j ∧ j < start + i + (count + 1) := by omega
          rw [if_pos hr, if_pos a2]
        · have a2 : ¬ (start + i ≤ j ∧ j < start + i + (count + 1)) := by omega
          rw [if_neg hr, if_neg a2, if_neg hj]

/-- The filling loop, started on a synchronised base reader with enough
records and enough room, reads `count` consecutive records into the cache
slots `i ..` and marks their indices. -/
theorem fillCache_spec {P : Type} (file : Nat → P) (header bound : Header)
    (hl : bound.dataRecordLength = header.dataRecordLength) (count : Nat) :
    ∀ (i : Nat) (s : CachedReaderImpl P), s.m_point_reader = some bound →
      s.m_current + count ≤ s.m_size → s.m_size ≤ s.m_mask.length →
      i + count ≤ s.m_cache.length →
      (s.m_current ≠ 0 → s.m_ifs = recordPos header s.m_current) →
      ∃ mask cache pos,
        fillCache file header count i s =
          .ok () { s with m_mask := mask, m_cache := cache, m_ifs := pos,
                          m_current := s.m_current + count } ∧
        (s.m_current + count ≠ 0 → pos = recordPos header (s.m_current + count)) ∧
        mask.length = s.m_mask.length ∧
        (∀ j, mask[j]? =
          if s.m_current ≤ j ∧ j < s.m_current + count then some true else s.m_mask[j]?) ∧
        cache.length = s.m_cache.length ∧
        (∀ j, cache[j]? =
          if i ≤ j ∧ j < i + count then some (file (recordPos header (s.m_current + (j - i))))
          else s.m_cache[j]?) := by
  induction count with
  | zero =>
    intro i s _ _ _ _ hpos
    refine ⟨s.m_mask, s.m_cache, s.m_ifs, rfl, ?_, rfl, ?_, rfl, ?_⟩
    · simpa using hpos
    · intro j
      have : ¬ (s.m_current ≤ j ∧ j < s.m_current + 0) := by omega
      rw [if_neg this]
    · intro j
      have : ¬ (i ≤ j ∧ j < i + 0) := by omega
      rw [if_neg this]
  | succ count ih =>
    intro i s hb hk hm hc hpos
    have hlt : s.m_current < s.m_size := by omega
    have hmk : s.m_current < s.m_mask.length := by omega
    have hci : i < s.m_cache.length := by omega
    have hread := ReaderImpl.ReadNextPoint_sync file header bound s.toReaderImpl hb hl hlt hpos
    obtain ⟨mask, cache, pos, h1, h2, h3, h4, h5, h6⟩ :=
      ih (i + 1)
        { s with m_mask := s.m_mask.set s.m_current true
                 m_cache := s.m_cache.set i (file (recordPos header s.m_current))
                 m_ifs := recordPos header (s.m_current + 1)
                 m_current := s.m_current + 1 }
        hb (by simp; omega) (by simp; omega) (by simp; omega) (by simp)
    simp only [List.length_set] at h3 h5
    refine ⟨mask, cache, pos, ?_, ?_, h3, ?_, h5, ?_⟩
    · simp only [fillCache, hmk, if_true, CachedReaderImpl.base, hread, List.length_set, hci]
      rw [h1]
      simp [Nat.add_assoc, Nat.add_comm 1 count]
    · intro hne
      have := h2 (by simp)
      simpa [Nat.add_assoc, Nat.add_comm 1 count] using this
    · intro j
      rw [h4 j, List.getElem?_set]
      by_cases hj : s.m_current = j
      · subst hj
        have a1 : ¬ (s.m_current + 1 ≤ s.m_current ∧ s.m_current < s.m_current + 1 + count) := by
          omega
        have a2 : s.m_current ≤ s.m_current ∧ s.m_current < s.m_current + (count + 1) := by omega
        rw [if_neg a1, if_pos a2, if_pos rfl, if_pos hmk]
      · by_cases hr : s.m_current + 1 ≤ j ∧ j < s.m_current + 1 + count
        · have a2 : s.m_current ≤ j ∧ j < s.m_current + (count + 1) := by omega
          rw [if_pos hr, if_pos a2]
        · have a2 : ¬ (s.m_current ≤ j ∧ j < s.m_current + (count + 1)) := by omega
          rw [if_neg hr, if_neg a2, if_neg hj]
    · intro j
      rw [h6 j, List.getElem?_set]
      by_cases hj : i = j
      · subst hj
        have a1 : ¬ (i + 1 ≤ i ∧ i < i + 1 + count) := by omega
        have a2 : i ≤ i ∧ i < i + (count + 1) := by omega
        rw [if_neg a1, if_pos a2, if_pos rfl, if_pos hci, Nat.sub_self, Nat.add_zero]
      · by_cases hr : i + 1 ≤ j ∧ j < i + 1 + count
        · have a2 : i ≤ j ∧ j < i + (count + 1) := by omega
          have a3 : s.m_current + 1 + (j - (i + 1)) = s.m_current + (j - i) := by omega
          rw [if_pos hr, if_pos a2, a3]
        · have a2 : ¬ (i ≤ j ∧ j < i + (count + 1)) := by omega
          rw [if_neg hr, if_neg a2, if_neg hj]

theorem sizeSub_of_le (a b : Nat) (hba : b ≤ a) (ha : a < 2 ^ 64) : sizeSub a b = a - b := by
  unfold sizeSub
  omega

/-- A cache miss at the end of the window during a sequential pass: the old
window is cleared, no seek is needed, and the next window is filled. -/
theorem CachedReaderImpl.CacheData_seq {P : Type} (file : Nat → P) (header : Header) (cap r : Nat)
    (s : CachedReaderImpl P) (hN : header.pointRecordsCount < 2 ^ 64) (hcap : 0 < cap)
    (inv : SeqInv file header cap r s) (hr : r < header.pointRecordsCount)
    (hcur : s.m_current = r) :
    ∃ s', CachedReaderImpl.CacheData file r header s = .ok () s' ∧
      SeqInv file header cap r s' ∧ s'.m_cache_start_position = r ∧ r < s'.m_current := by
  obtain ⟨i1, i2, i3, i4, i5, i6, i7, i8, i9, i10, i11, i12, i13, i14⟩ := inv
  have hsub : sizeSub header.pointRecordsCount r = header.pointRecordsCount - r :=
    sizeSub_of_le _ _ (by omega) hN
  have hmark : max cap (min cap (header.pointRecordsCount - r)) = cap := by omega
  obtain ⟨mask1, c1, c2, c3⟩ := clearMask_spec s.m_cache_start_position cap 0 s.m_mask
    (by have := i11 (by omega); omega)
  have hfill := fillCache_spec file header header rfl (min cap (header.pointRecordsCount - r)) 0
    { s with m_cache_start_position := r, m_mask := mask1, m_cache_read_position := r }
    i2 (by simp [hcur, i1]; omega) (by simp [c2, i1, i5]) (by simp [i4])
    (by simpa using i12)
  obtain ⟨mask2, cache2, pos2, f1, f2, f3, f4, f5, f6⟩ := hfill
  simp only [hcur] at f1 f2 f4 f6
  refine ⟨{ s with m_cache_start_position := r, m_cache_read_position := r, m_mask := mask2,
                   m_cache := cache2, m_ifs := pos2,
                   m_current := r + min cap (header.pointRecordsCount - r) }, ?_, ?_, ?_, ?_⟩
  · simp only [CachedReaderImpl.CacheData, i3, hsub, hmark, c1, hcur, ne_eq, not_true_eq_false,
      if_false, Outcome.bind_ok]
    simp only [i3] at f1
    exact f1
  · refine ⟨i1, i2, i3, ?_, ?_, rfl, le_refl _, ?_, ?_, ?_, ?_, ?_, ?_, ?_⟩
    · simpa [i4] using f5
    · simpa [c2, i5] using f3
    · show r ≤ r + _
      omega
    · show r + _ ≤ _
      omega
    · show r + _ ≤ r + cap
      omega
    · show r + _ < _ → r + cap ≤ _
      omega
    · show r + _ ≠ 0 → pos2 = recordPos header (r + _)
      exact f2
    · intro j hj
      show mask2[j]? = some (decide (r ≤ j ∧ j < r + _))
      rw [f4 j]
      by_cases hw : r ≤ j ∧ j < r + min cap (header.pointRecordsCount - r)
      · rw [if_pos hw]; simp [hw]
      · rw [if_neg hw]
        show mask1[j]? = _
        rw [c3 j, i13 j hj]
        by_cases hc : s.m_cache_start_position + 0 ≤ j ∧ j < s.m_cache_start_position + 0 + cap
        · rw [if_pos hc]; simp [hw]
        · rw [if_neg hc]
          have : ¬ (s.m_cache_start_position ≤ j ∧ j < s.m_current) := by omega
          simp [hw, this]
    · intro j hj1 hj2
      show cache2[j - r]? = _
      have hj2' : j < r + min cap (header.pointRecordsCount - r) := hj2
      rw [f6 (j - r)]
      have hw : 0 ≤ j - r ∧ j - r < 0 + min cap (header.pointRecordsCount - r) := by
        have : r ≤ j := hj1
        omega
      rw [if_pos hw]
      have : r + (j - r - 0) = j := by
        have : r ≤ j := hj1
        omega
      rw [this]
  · rfl
  · show r < r + _
    omega

theorem cacheAt_sub {P : Type} (cache : List P) (position start : Nat) (h : start ≤ position) :
    cacheAt cache ((position : Int) - (start : Int)) = cache[position - start]? := by
  have h0 : (0 : Int) ≤ (position : Int) - (start : Int) := by omega
  simp [cacheAt, h0, Int.toNat_sub]

/-- Serving index `r` during a sequential pass, by a hit or by a refill. -/
theorem CachedReaderImpl.ReadCachedPoint_seq {P : Type} (file : Nat → P) (header : Header)
    (cap r : Nat) (s : CachedReaderImpl P) (hN : header.pointRecordsCount < 2 ^ 64)
    (hcap : 0 < cap) (inv : SeqInv file header cap r s) (hr : r < header.pointRecordsCount) :
    ∃ s', CachedReaderImpl.ReadCachedPoint file r header s = .ok (file (recordPos header r)) s' ∧
      SeqInv file header cap r s' ∧ r < s'.m_current := by
  by_cases hit : r < s.m_current
  · obtain ⟨i1, i2, i3, i4, i5, i6, i7, i8, i9, i10, i11, i12, i13, i14⟩ := inv
    have hm : s.m_mask[r]? = some true := by
      rw [i13 r hr]; simp [i7, hit]
    refine ⟨{ s with m_cache_read_position := r }, ?_,
      ⟨i1, i2, i3, i4, i5, rfl, i7, i8, i9, i10, i11, i12, i13, i14⟩, hit⟩
    simp only [CachedReaderImpl.ReadCachedPoint, hm, cacheAt_sub _ _ _ i7, i14 r i7 hit]
  · have hcur : s.m_current = r := by
      have := inv.2.2.2.2.2.2.2.1
      omega
    have hm : s.m_mask[r]? = some false := by
      rw [inv.2.2.2.2.2.2.2.2.2.2.2.2.1 r hr]; simp [hit]
    obtain ⟨s', d1, d2, d3, d4⟩ :=
      CachedReaderImpl.CacheData_seq file header cap r s hN hcap inv hr hcur
    obtain ⟨i1, i2, i3, i4, i5, i6, i7, i8, i9, i10, i11, i12, i13, i14⟩ := d2
    have hm' : s'.m_mask[r]? = some true := by
      rw [i13 r hr]; simp [d3, d4]
    have hc' : s'.m_cache[0]? = some (file (recordPos header r)) := by
      have := i14 r (by omega) d4
      simpa [d3] using this
    refine ⟨s', ?_, ⟨i1, i2, i3, i4, i5, i6, i7, i8, i9, i10, i11, i12, i13, i14⟩, d4⟩
    simp only [CachedReaderImpl.ReadCachedPoint, hm, d1, Outcome.bind_ok, d3, sub_self,
      lt_self_iff_false, if_false, hm', Int.toNat_zero]
    have : ¬ (0 > s'.m_cache.length) := by omega
    simp [this, cacheAt, hc']

/-- One step of a sequential pass through the cache. -/
theorem CachedReaderImpl.ReadNextPoint_seq {P : Type} (file : Nat → P) (header : Header)
    (cap r : Nat) (s : CachedReaderImpl P) (hN : header.pointRecordsCount < 2 ^ 64)
    (hcap : 0 < cap) (inv : SeqInv file header cap r s) (hr : r < header.pointRecordsCount) :
    ∃ s', CachedReaderImpl.ReadNextPoint file header s = .ok (file (recordPos header r)) s' ∧
      SeqInv file header cap (r + 1) s' := by
  obtain ⟨s', h1, h2, h3⟩ :=
    CachedReaderImpl.ReadCachedPoint_seq file header cap r s hN hcap inv hr
  have hrp : s.m_cache_read_position = r := inv.2.2.2.2.2.1
  have hne : ¬ (r = s.m_size) := by
    rw [inv.1]; omega
  obtain ⟨i1, i2, i3, i4, i5, i6, i7, i8, i9, i10, i11, i12, i13, i14⟩ := h2
  refine ⟨{ s' with m_cache_read_position := s'.m_cache_read_position + 1 }, ?_,
    ⟨i1, i2, i3, i4, i5, ?_, ?_, ?_, i9, i10, i11, i12, i13, i14⟩⟩
  · simp only [CachedReaderImpl.ReadNextPoint, hrp, hne, if_false, h1, Outcome.bind_ok]
  · show s'.m_cache_read_position + 1 = r + 1
    rw [i6]
  · show s'.m_cache_start_position ≤ r + 1
    omega
  · show r + 1 ≤ s'.m_current
    omega

/-- Iterated sequential reads through the cache. -/
theorem CachedReaderImpl.readNextTimes_seq {P : Type} (file : Nat → P) (header : Header)
    (cap : Nat) (hN : header.pointRecordsCount < 2 ^ 64) (hcap : 0 < cap) (k : Nat) :
    ∀ (r : Nat) (s : CachedReaderImpl P), SeqInv file header cap r s →
      r + k ≤ header.pointRecordsCount →
      ∃ s', CachedReaderImpl.readNextTimes file header k s =
          .ok ((List.range' r k).map fun i => file (recordPos header i)) s' ∧
        SeqInv file header cap (r + k) s' := by
  induction k with
  | zero =>
    intro r s inv _
    exact ⟨s, rfl, inv⟩
  | succ k ih =>
    intro r s inv hk
    obtain ⟨s1, h1, h2⟩ :=
      CachedReaderImpl.ReadNextPoint_seq file header cap r s hN hcap inv (by omega)
    obtain ⟨s2, h3, h4⟩ := ih (r + 1) s1 h2 (by omega)
    refine ⟨s2, ?_, ?_⟩
    · simp only [CachedReaderImpl.readNextTimes, h1, Outcome.bind_ok, h3, List.range',
        List.map_cons]
    · have : r + (k + 1) = r + 1 + k := by omega
      rw [this]; exact h4

/-- The state of a freshly opened cache reader. -/
theorem CachedReaderImpl.opened_eq {P : Type} [Inhabited P] (header : Header) (size : Nat) :
    (CachedReaderImpl.opened header size : Outcome (CachedReaderImpl P) Header) =
      .ok header
        { m_ifs := 0, m_size := header.pointRecordsCount, m_current := 0,
          m_point_reader := some header,
          m_cache_size := clampedCacheSize header size,
          m_cache_start_position := 0, m_cache_read_position := 0,
          m_mask := List.replicate header.pointRecordsCount false,
          m_cache := List.replicate (clampedCacheSize header size) default } := by
  simp [CachedReaderImpl.opened, CachedReaderImpl.ReadHeader, CachedReaderImpl.Reset,
    CachedReaderImpl.construct, ReaderImpl.construct, ReaderImpl.Reset, clampedCacheSize, resize]

theorem clampedCacheSize_le (header : Header) (size : Nat) :
    clampedCacheSize header size ≤ header.pointRecordsCount := by
  unfold clampedCacheSize
  dsimp only
  split_ifs <;> omega

theorem clampedCacheSize_pos (header : Header) (size : Nat) (h : 0 < header.pointRecordsCount) :
    0 < clampedCacheSize header size := by
  unfold clampedCacheSize
  dsimp only
  split_ifs <;> omega

/-- `ReaderImpl::ReadNextPoint` never changes `m_size`, whether it returns or throws. -/
theorem ReaderImpl.ReadNextPoint_size {P : Type} (file : Nat → P) (header : Header)
    (s : ReaderImpl) :
    (∀ p s', ReaderImpl.ReadNextPoint file header s = .ok p s' → s'.m_size = s.m_size) ∧
    (∀ e s', ReaderImpl.ReadNextPoint file header s = .threw e s' → s'.m_size = s.m_size) := by
  have key : ∀ s0 : ReaderImpl,
      (∀ p s', (if s0.m_current < s0.m_size then
          (ReaderImpl.pointRead file s0).bind fun point s =>
            .ok point { s with m_current := s.m_current + 1 }
        else if s0.m_current = s0.m_size then .threw .out_of_range s0
        else .threw .runtime_error s0) = Outcome.ok p s' → s'.m_size = s0.m_size) ∧
      (∀ e s', (if s0.m_current < s0.m_size then
          (ReaderImpl.pointRead file s0).bind fun point s =>
            .ok point { s with m_current := s.m_current + 1 }
        else if s0.m_current = s0.m_size then .threw .out_of_range s0
        else .threw .runtime_error s0) = Outcome.threw e s' → s'.m_size = s0.m_size) := by
    intro s0
    constructor
    · intro p s' h
      split_ifs at h
      cases hr : s0.m_point_reader with
      | none => simp [ReaderImpl.pointRead, hr] at h
      | some b =>
        simp [ReaderImpl.pointRead, hr] at h
        rw [← h.2]
    · intro e s' h
      split_ifs at h
      · cases hr : s0.m_point_reader with
        | none => simp [ReaderImpl.pointRead, hr] at h
        | some b => simp [ReaderImpl.pointRead, hr] at h
      · simp at h; rw [← h.2]
      · simp at h; rw [← h.2]
  unfold ReaderImpl.ReadNextPoint
  by_cases h0 : 0 = s.m_current
  · simp only [if_pos h0]
    exact key { s with m_ifs := header.dataOffset }
  · simp only [if_neg h0]
    exact key s

/-- The filling loop never changes `m_size`. -/
theorem fillCache_size {P : Type} (file : Nat → P) (header : Header) (count : Nat) :
    ∀ (i : Nat) (s s' : CachedReaderImpl P),
      fillCache file header count i s = .ok () s' → s'.m_size = s.m_size := by
  induction count with
  | zero =>
    intro i s s' h
    simp [fillCache] at h
    rw [← h]
  | succ count ih =>
    intro i s s' h
    unfold fillCache at h
    split_ifs at h with hm
    have hsz := ReaderImpl.ReadNextPoint_size file header s.toReaderImpl
    revert h
    simp only [CachedReaderImpl.base]
    cases hr : ReaderImpl.ReadNextPoint file header s.toReaderImpl with
    | ok p b =>
      simp only
      intro h
      split_ifs at h
      have := ih _ _ _ h
      rw [this]
      exact hsz.1 p b hr
    | threw e b =>
      cases e with
      | out_of_range =>
        simp only
        intro h
        simp at h
        rw [← h]
        exact hsz.2 _ b hr
      | runtime_error => simp
    | undefined => simp

/-- A seek of the base reader that returns leaves `n` below `m_size`. -/
theorem ReaderImpl.Seek_ok_lt (n : Nat) (header : Header) (b b' : ReaderImpl)
    (h : ReaderImpl.Seek n header b = .ok () b') : n < b'.m_size := by
  unfold ReaderImpl.Seek at h
  split_ifs at h with h1 h2
  simp at h
  rw [← h]
  show n < b.m_size
  omega

/-- A seek of the cache reader that returns leaves `n` below `m_size`. -/
theorem CachedReaderImpl.Seek_returns_lt {P : Type} (n : Nat) (header : Header)
    (s s' : CachedReaderImpl P) (h : CachedReaderImpl.Seek n header s = .ok () s') :
    n < s'.m_size := by
  unfold CachedReaderImpl.Seek at h
  have key : ∀ t : CachedReaderImpl P,
      CachedReaderImpl.base (ReaderImpl.Seek n header) { t with m_cache_read_position := n } =
        .ok () s' → n < s'.m_size := by
    intro t ht
    unfold CachedReaderImpl.base at ht
    cases hb : ReaderImpl.Seek n header t.toReaderImpl with
    | ok u b =>
      simp only [hb] at ht
      simp at ht
      rw [← ht]
      exact ReaderImpl.Seek_ok_lt n header _ b hb
    | threw e b => simp [hb] at ht
    | undefined => simp [hb] at ht
  cases hr : (if n < 1 then CachedReaderImpl.Reset header s else Outcome.ok () s) with
  | ok u t =>
    rw [hr] at h
    exact key t h
  | threw e t => rw [hr] at h; simp at h
  | undefined => rw [hr] at h; simp at h

/-- A refill for `position` that returns leaves `position` below `m_size`. -/
theorem CachedReaderImpl.CacheData_ok_lt {P : Type} (file : Nat → P) (position : Nat)
    (header : Header) (s s' : CachedReaderImpl P)
    (h : CachedReaderImpl.CacheData file position header s = .ok () s')
    (hlt : position < s.m_size) : position < s'.m_size := by
  unfold CachedReaderImpl.CacheData at h
  dsimp only at h
  split at h
  · simp at h
  · rename_i mask hc
    by_cases hcur : s.m_current ≠ position
    · simp only [if_pos hcur] at h
      cases hs : CachedReaderImpl.Seek position header
          { s with m_cache_start_position := position, m_mask := mask } with
      | ok u t =>
        simp only [hs, Outcome.bind_ok] at h
        have h1 := fillCache_size file header _ _ _ _ h
        rw [h1]
        exact CachedReaderImpl.Seek_returns_lt position header _ t hs
      | threw e t => simp [hs] at h
      | undefined => simp [hs] at h
    · simp only [if_neg hcur, Outcome.bind_ok] at h
      have h1 := fillCache_size file header _ _ _ _ h
      rw [h1]
      exact hlt

/-- What a returning `ReadCachedPoint` guarantees: the requested index is
marked, the point returned is the cache entry of that index, and the index is
still below `m_size`. -/
theorem CachedReaderImpl.ReadCachedPoint_ok {P : Type} (file : Nat → P) (position : Nat)
    (header : Header) (s s' : CachedReaderImpl P) (p : P)
    (h : CachedReaderImpl.ReadCachedPoint file position header s = .ok p s') :
    s'.m_mask[position]? = some true ∧
    cacheAt s'.m_cache ((position : Int) - (s'.m_cache_start_position : Int)) = some p ∧
    (position < s.m_size → position < s'.m_size) := by
  unfold CachedReaderImpl.ReadCachedPoint at h
  simp only at h
  cases hm : s.m_mask[position]? with
  | none => simp [hm] at h
  | some b =>
    cases b with
    | true =>
      simp only [hm] at h
      cases hc : cacheAt s.m_cache ((position : Int) - (s.m_cache_start_position : Int)) with
      | none => simp [hc] at h
      | some q =>
        simp only [hc] at h
        simp at h
        obtain ⟨rfl, rfl⟩ := h
        exact ⟨hm, hc, fun hlt => hlt⟩
    | false =>
      simp only [hm] at h
      cases hd : CachedReaderImpl.CacheData file position header s with
      | ok u t =>
        simp only [hd, Outcome.bind_ok] at h
        by_cases hneg : (position : Int) - (t.m_cache_start_position : Int) < 0
        · simp [hneg] at h
        simp only [if_neg hneg] at h
        cases hm' : t.m_mask[position]? with
        | none => simp [hm'] at h
        | some b' =>
          cases b' with
          | false => simp [hm'] at h
          | true =>
            simp only [hm'] at h
            split_ifs at h with hbig
            cases hc : cacheAt t.m_cache ((position : Int) - (t.m_cache_start_position : Int)) with
            | none => simp [hc] at h
            | some q =>
              simp only [hc] at h
              simp at h
              obtain ⟨rfl, rfl⟩ := h
              exact ⟨hm', hc, CachedReaderImpl.CacheData_ok_lt file position header s _ hd⟩
      | threw e t => simp [hd] at h
      | undefined => simp [hd] at h

/-! ## The claims -/

/-- C1: on the example file (three records, cache size 3), `Seek(1)` followed
by `ReadPointAt(2)` on a freshly opened cache reader returns record 1, while
`ReadPointAt(2)` issued directly returns record 2: the point returned for an
index depends on the operations issued before. -/
theorem CachedReaderImpl.ReadPointAt_after_Seek_example :
    (((CachedReaderImpl.opened exampleHeader 0).bind fun _ s =>
        CachedReaderImpl.Seek 1 exampleHeader s).bind fun _ s =>
        CachedReaderImpl.ReadPointAt exampleFile 2 exampleHeader s) =
      .ok (exampleFile (recordPos exampleHeader 1))
        { m_ifs := 140, m_size := 3, m_current := 3, m_point_reader := some exampleHeader,
          m_cache_size := 3, m_cache_start_position := 2, m_cache_read_position := 2,
          m_mask := [false, false, true], m_cache := [120, 0, 0] } ∧
    ((CachedReaderImpl.opened exampleHeader 0).bind fun _ s =>
        CachedReaderImpl.ReadPointAt exampleFile 2 exampleHeader s) =
      .ok (exampleFile (recordPos exampleHeader 2))
        { m_ifs := 160, m_size := 3, m_current := 3, m_point_reader := some exampleHeader,
          m_cache_size := 3, m_cache_start_position := 2, m_cache_read_position := 2,
          m_mask := [false, false, true], m_cache := [140, 0, 0] } ∧
    exampleFile (recordPos exampleHeader 1) ≠ exampleFile (recordPos exampleHeader 2) := by
  decide

/-- C2: for every record count `N` below `2^31` and every constructor cache size, on a
freshly opened cache reader `N` successive calls of
`CachedReaderImpl::ReadNextPoint` return the records `0, 1, ..., N-1` in order
(the sequence the base reader returns after its `ReadHeader`), and the next
call throws `std::out_of_range`. -/
theorem CachedReaderImpl.ReadNextPoint_whole_file {P : Type} [Inhabited P] (file : Nat → P)
    (header : Header) (size : Nat) (hN : header.pointRecordsCount < 2 ^ 31) :
    ∃ s0 sN t,
      CachedReaderImpl.opened header size = .ok header s0 ∧
      CachedReaderImpl.readNextTimes file header header.pointRecordsCount s0 =
        .ok ((List.range header.pointRecordsCount).map fun i => file (recordPos header i)) sN ∧
      CachedReaderImpl.ReadNextPoint file header sN = .threw .out_of_range sN ∧
      ((ReaderImpl.ReadHeader header (ReaderImpl.construct 0)).bind fun _ b =>
          ReaderImpl.readNextTimes file header header.pointRecordsCount b) =
        .ok ((List.range header.pointRecordsCount).map fun i => file (recordPos header i)) t := by
  have hN' : header.pointRecordsCount < 2 ^ 64 := by omega
  obtain ⟨t, ht, -⟩ := ReaderImpl.readNextTimes_sync file header header rfl
    header.pointRecordsCount (ReaderImpl.Reset header (ReaderImpl.construct 0)) rfl
    (by simp [ReaderImpl.Reset]) (by simp [ReaderImpl.Reset])
  have ht' : ((ReaderImpl.ReadHeader header (ReaderImpl.construct 0)).bind fun _ b =>
      ReaderImpl.readNextTimes file header header.pointRecordsCount b) =
      .ok ((List.range header.pointRecordsCount).map fun i => file (recordPos header i)) t := by
    rw [List.range_eq_range']
    exact ht
  have hopen := CachedReaderImpl.opened_eq (P := P) header size
  by_cases h0 : header.pointRecordsCount = 0
  · obtain ⟨s0, hs0, hopen'⟩ : ∃ s0 : CachedReaderImpl P,
        (s0.m_cache_read_position = 0 ∧ s0.m_size = header.pointRecordsCount) ∧
        CachedReaderImpl.opened header size = .ok header s0 := ⟨_, ⟨rfl, rfl⟩, hopen⟩
    refine ⟨s0, s0, t, hopen', ?_, ?_, ht'⟩
    · rw [h0]; rfl
    · simp [CachedReaderImpl.ReadNextPoint, hs0.1, hs0.2, h0]
  · have inv0 : SeqInv file header (clampedCacheSize header size) 0
        ({ m_ifs := 0, m_size := header.pointRecordsCount, m_current := 0,
           m_point_reader := some header,
           m_cache_size := clampedCacheSize header size,
           m_cache_start_position := 0, m_cache_read_position := 0,
           m_mask := List.replicate header.pointRecordsCount false,
           m_cache := List.replicate (clampedCacheSize header size) default } :
          CachedReaderImpl P) := by
      refine ⟨rfl, rfl, rfl, by simp, by simp, rfl, le_refl _, le_refl _, Nat.zero_le _,
        Nat.zero_le _, ?_, by simp, ?_, ?_⟩
      · intro _
        simpa using clampedCacheSize_le header size
      · intro j hj
        simp [List.getElem?_replicate, hj]
      · intro j _ hj
        simp at hj
    obtain ⟨sN, h1, h2⟩ := CachedReaderImpl.readNextTimes_seq file header
      (clampedCacheSize header size) hN' (clampedCacheSize_pos header size (by omega))
      header.pointRecordsCount 0 _ inv0 (by omega)
    rw [← List.range_eq_range'] at h1
    refine ⟨_, sN, t, hopen, h1, ?_, ht'⟩
    have e1 := h2.1
    have e2 := h2.2.2.2.2.2.1
    simp only [Nat.zero_add] at e2
    simp [CachedReaderImpl.ReadNextPoint, e1, e2]

theorem CachedReaderImpl.ReadNextPoint_whole_file_witness :
    exampleHeader.pointRecordsCount < 2 ^ 31 ∧
    ∃ s0 sN t,
      CachedReaderImpl.opened exampleHeader 2 = .ok exampleHeader s0 ∧
      CachedReaderImpl.readNextTimes exampleFile exampleHeader exampleHeader.pointRecordsCount s0 =
        .ok ((List.range exampleHeader.pointRecordsCount).map fun i =>
          exampleFile (recordPos exampleHeader i)) sN ∧
      CachedReaderImpl.ReadNextPoint exampleFile exampleHeader sN = .threw .out_of_range sN ∧
      ((ReaderImpl.ReadHeader exampleHeader (ReaderImpl.construct 0)).bind fun _ b =>
          ReaderImpl.readNextTimes exampleFile exampleHeader exampleHeader.pointRecordsCount b) =
        .ok ((List.range exampleHeader.pointRecordsCount).map fun i =>
          exampleFile (recordPos exampleHeader i)) t :=
  ⟨by decide, CachedReaderImpl.ReadNextPoint_whole_file exampleFile exampleHeader 2 (by decide)⟩

/-- C3: after `ReaderImpl::Reset`, with nothing interleaved, the first `k`
calls of `ReaderImpl::ReadNextPoint` (`k < N`) return records `0 .. k-1`, the
next call returns record `k` (the point `ReadPointAt(k)` returns) and leaves
`m_current = k + 1`; after `N` calls the next one throws `std::out_of_range`
and leaves `m_current = N`. -/
theorem ReaderImpl.ReadNextPoint_after_Reset {P : Type} (file : Nat → P) (header : Header)
    (s : ReaderImpl)
    (hb : ∀ bound, s.m_point_reader = some bound →
      bound.dataRecordLength = header.dataRecordLength) :
    (∀ k, k < header.pointRecordsCount → ∃ sk sk' t,
      ReaderImpl.readNextTimes file header k (ReaderImpl.Reset header s) =
        .ok ((List.range k).map fun i => file (recordPos header i)) sk ∧
      sk.m_current = k ∧
      ReaderImpl.ReadNextPoint file header sk = .ok (file (recordPos header k)) sk' ∧
      sk'.m_current = k + 1 ∧
      ReaderImpl.ReadPointAt file k header sk = .ok (file (recordPos header k)) t) ∧
    (∃ sN sN',
      ReaderImpl.readNextTimes file header header.pointRecordsCount (ReaderImpl.Reset header s) =
        .ok ((List.range header.pointRecordsCount).map fun i => file (recordPos header i)) sN ∧
      ReaderImpl.ReadNextPoint file header sN = .threw .out_of_range sN' ∧
      sN'.m_current = header.pointRecordsCount) := by
  obtain ⟨bound, hbound, hl⟩ : ∃ bound, (ReaderImpl.Reset header s).m_point_reader = some bound ∧
      bound.dataRecordLength = header.dataRecordLength := by
    cases hr : s.m_point_reader with
    | none => exact ⟨header, by simp [ReaderImpl.Reset, hr], rfl⟩
    | some b => exact ⟨b, by simp [ReaderImpl.Reset, hr], hb b hr⟩
  have hcur : (ReaderImpl.Reset header s).m_current = 0 := rfl
  have hsize : (ReaderImpl.Reset header s).m_size = header.pointRecordsCount := rfl
  constructor
  · intro k hk
    obtain ⟨sk, h1, h2, h3, h4, h5⟩ :=
      ReaderImpl.readNextTimes_sync file header bound hl k (ReaderImpl.Reset header s) hbound
        (by rw [hcur, hsize]; omega) (by simp [hcur])
    rw [hcur, Nat.zero_add] at h2
    rw [hcur, ← List.range_eq_range'] at h1
    rw [hsize] at h3
    have hlt : sk.m_current < sk.m_size := by omega
    have hstep := ReaderImpl.ReadNextPoint_sync file header bound sk h4 hl hlt h5
    rw [h2] at hstep
    obtain ⟨t, ht, -⟩ := ReaderImpl.ReadPointAt_sync file k header bound sk h4 (by omega)
    exact ⟨sk, _, t, h1, h2, hstep, rfl, ht⟩
  · obtain ⟨sN, h1, h2, h3, h4, h5⟩ :=
      ReaderImpl.readNextTimes_sync file header bound hl header.pointRecordsCount
        (ReaderImpl.Reset header s) hbound (by rw [hcur, hsize]; omega) (by simp [hcur])
    rw [hcur, Nat.zero_add] at h2
    rw [hcur, ← List.range_eq_range'] at h1
    rw [hsize] at h3
    refine ⟨sN, if 0 = sN.m_current then { sN with m_ifs := header.dataOffset } else sN, h1, ?_, ?_⟩
    · by_cases h0 : 0 = header.pointRecordsCount
      · simp [ReaderImpl.ReadNextPoint, h2, h3, ← h0]
      · simp [ReaderImpl.ReadNextPoint, h2, h3, h0]
    · split <;> simp [h2]

theorem ReaderImpl.ReadNextPoint_after_Reset_witness :
    (∀ bound, (ReaderImpl.construct 5).m_point_reader = some bound →
      bound.dataRecordLength = exampleHeader.dataRecordLength) ∧
    (∀ k, k < exampleHeader.pointRecordsCount → ∃ sk sk' t,
      ReaderImpl.readNextTimes exampleFile exampleHeader k
          (ReaderImpl.Reset exampleHeader (ReaderImpl.construct 5)) =
        .ok ((List.range k).map fun i => exampleFile (recordPos exampleHeader i)) sk ∧
      sk.m_current = k ∧
      ReaderImpl.ReadNextPoint exampleFile exampleHeader sk =
        .ok (exampleFile (recordPos exampleHeader k)) sk' ∧
      sk'.m_current = k + 1 ∧
      ReaderImpl.ReadPointAt exampleFile k exampleHeader sk =
        .ok (exampleFile (recordPos exampleHeader k)) t) ∧
    (∃ sN sN',
      ReaderImpl.readNextTimes exampleFile exampleHeader exampleHeader.pointRecordsCount
          (ReaderImpl.Reset exampleHeader (ReaderImpl.construct 5)) =
        .ok ((List.range exampleHeader.pointRecordsCount).map fun i =>
          exampleFile (recordPos exampleHeader i)) sN ∧
      ReaderImpl.ReadNextPoint exampleFile exampleHeader sN = .threw .out_of_range sN' ∧
      sN'.m_current = exampleHeader.pointRecordsCount) :=
  ⟨by intro bound h; simp [ReaderImpl.construct] at h,
    ReaderImpl.ReadNextPoint_after_Reset exampleFile exampleHeader (ReaderImpl.construct 5)
      (by intro bound h; simp [ReaderImpl.construct] at h)⟩

/-- C4: for `n < m_size`, `ReaderImpl::ReadPointAt` returns the point decoded
at byte offset `dataOffset + n * recordLength`, whatever the stream position
and `m_current` were; afterwards the stream stands one record behind that
offset and `m_current`, `m_size` are unchanged. -/
theorem ReaderImpl.ReadPointAt_offset {P : Type} (file : Nat → P) (n : Nat) (header bound : Header)
    (s : ReaderImpl) (hb : s.m_point_reader = some bound) (hn : n < s.m_size) :
    ∃ s', ReaderImpl.ReadPointAt file n header s =
        .ok (file (header.dataOffset + n * header.dataRecordLength)) s' ∧
      s'.m_ifs = header.dataOffset + n * header.dataRecordLength + bound.dataRecordLength ∧
      s'.m_current = s.m_current ∧ s'.m_size = s.m_size ∧
      s'.m_point_reader = s.m_point_reader := by
  have h1 : ¬ s.m_size = n := by omega
  have h2 : ¬ s.m_size < n := by omega
  simp [ReaderImpl.ReadPointAt, ReaderImpl.pointRead, h1, h2, hb, recordPos, Nat.add_comm]

theorem ReaderImpl.ReadPointAt_offset_witness :
    ({ m_ifs := 7, m_size := 3, m_current := 1, m_point_reader := some exampleHeader } :
      ReaderImpl).m_point_reader = some exampleHeader ∧
    2 < ({ m_ifs := 7, m_size := 3, m_current := 1, m_point_reader := some exampleHeader } :
      ReaderImpl).m_size ∧
    ∃ s', ReaderImpl.ReadPointAt exampleFile 2 exampleHeader
        { m_ifs := 7, m_size := 3, m_current := 1, m_point_reader := some exampleHeader } =
        .ok (exampleFile (exampleHeader.dataOffset + 2 * exampleHeader.dataRecordLength)) s' ∧
      s'.m_ifs = exampleHeader.dataOffset + 2 * exampleHeader.dataRecordLength +
        exampleHeader.dataRecordLength ∧
      s'.m_current = 1 ∧ s'.m_size = 3 ∧ s'.m_point_reader = some exampleHeader :=
  ⟨rfl, by decide,
    ReaderImpl.ReadPointAt_offset exampleFile 2 exampleHeader exampleHeader
      { m_ifs := 7, m_size := 3, m_current := 1, m_point_reader := some exampleHeader } rfl
      (by decide)⟩

/-- C5: `ReaderImpl::ReadPointAt` throws `std::out_of_range` exactly when
`n == m_size` and `std::runtime_error` exactly when `n > m_size`; in both cases
the state at the throw (stream position, `m_current`, everything else) is the
state before the call.  No exception leaves the function exactly when
`n < m_size`. -/
theorem ReaderImpl.ReadPointAt_error_trichotomy {P : Type} (file : Nat → P) (n : Nat)
    (header : Header) (s : ReaderImpl) :
    (∀ s', ReaderImpl.ReadPointAt file n header s = .threw .out_of_range s' ↔
        (n = s.m_size ∧ s' = s)) ∧
    (∀ s', ReaderImpl.ReadPointAt file n header s = .threw .runtime_error s' ↔
        (s.m_size < n ∧ s' = s)) ∧
    (n < s.m_size ↔ ∀ e s', ReaderImpl.ReadPointAt file n header s ≠ .threw e s') := by
  rcases Nat.lt_trichotomy n s.m_size with h | h | h
  · have h1 : ¬ s.m_size = n := by omega
    have h2 : ¬ s.m_size < n := by omega
    have h3 : ¬ n = s.m_size := by omega
    cases hr : s.m_point_reader <;>
      simp [ReaderImpl.ReadPointAt, ReaderImpl.pointRead, h1, h2, h3, hr, h]
  · have hres : ReaderImpl.ReadPointAt file n header s = .threw .out_of_range s := by
      simp [ReaderImpl.ReadPointAt, h]
    rw [hres]
    refine ⟨fun s' => ⟨fun hq => ?_, fun hq => ?_⟩, fun s' => ⟨fun hq => ?_, fun hq => ?_⟩,
      ⟨fun hq => ?_, fun hq => ?_⟩⟩
    · cases hq; exact ⟨h, rfl⟩
    · rw [hq.2]
    · cases hq
    · omega
    · omega
    · exact absurd rfl (hq .out_of_range s)
  · have h1 : ¬ s.m_size = n := by omega
    have hres : ReaderImpl.ReadPointAt file n header s = .threw .runtime_error s := by
      simp [ReaderImpl.ReadPointAt, h1, h]
    rw [hres]
    refine ⟨fun s' => ⟨fun hq => ?_, fun hq => ?_⟩, fun s' => ⟨fun hq => ?_, fun hq => ?_⟩,
      ⟨fun hq => ?_, fun hq => ?_⟩⟩
    · cases hq
    · omega
    · cases hq; exact ⟨h, rfl⟩
    · rw [hq.2]
    · omega
    · exact absurd rfl (hq .runtime_error s)

/-- C6: on the example file (three records) `CachedReaderImpl::ReadPointAt(4)`
throws `std::out_of_range`, whereas `ReaderImpl::ReadPointAt(4)` on the same
base state throws `std::runtime_error`. -/
theorem CachedReaderImpl.ReadPointAt_beyond_example :
    CachedReaderImpl.opened exampleHeader 2 = .ok exampleHeader exampleCache ∧
    CachedReaderImpl.ReadPointAt exampleFile 4 exampleHeader exampleCache =
      .threw .out_of_range exampleCache ∧
    ReaderImpl.ReadPointAt exampleFile 4 exampleHeader exampleCache.toReaderImpl =
      .threw .runtime_error exampleCache.toReaderImpl := by
  decide

/-- C7: on the example file, `ReaderImpl::Seek(1)` after a reset leaves
`m_current = 2` with the stream at the start of record 1, and the following
`ReaderImpl::ReadNextPoint` returns record 1 (not record 2) and leaves
`m_current = 3`. -/
theorem ReaderImpl.ReadNextPoint_after_Seek_example :
    ReaderImpl.Seek 1 exampleHeader (ReaderImpl.Reset exampleHeader (ReaderImpl.construct 0)) =
      .ok () { m_ifs := recordPos exampleHeader 1, m_size := 3, m_current := 2,
               m_point_reader := some exampleHeader } ∧
    ((ReaderImpl.Seek 1 exampleHeader (ReaderImpl.Reset exampleHeader (ReaderImpl.construct 0))).bind
        fun _ s => ReaderImpl.ReadNextPoint exampleFile exampleHeader s) =
      .ok (exampleFile (recordPos exampleHeader 1))
        { m_ifs := recordPos exampleHeader 2, m_size := 3, m_current := 3,
          m_point_reader := some exampleHeader } ∧
    exampleFile (recordPos exampleHeader 1) ≠ exampleFile (recordPos exampleHeader 2) := by
  decide

/-- C8: on the example file, after `Seek(1)` and `ReadPointAt(2)` the cache
reader is sought to index 2 with `Seek(2)`; `m_cache_read_position` is 2, and
the following `ReadNextPoint` is a cache hit that returns record 1, not
record 2. -/
theorem CachedReaderImpl.ReadNextPoint_stale_hit_example :
    ((((CachedReaderImpl.opened exampleHeader 0).bind fun _ s =>
        CachedReaderImpl.Seek 1 exampleHeader s).bind fun _ s =>
        CachedReaderImpl.ReadPointAt exampleFile 2 exampleHeader s).bind fun _ s =>
        CachedReaderImpl.Seek 2 exampleHeader s) =
      .ok ()
        { m_ifs := 140, m_size := 3, m_current := 3, m_point_reader := some exampleHeader,
          m_cache_size := 3, m_cache_start_position := 2, m_cache_read_position := 2,
          m_mask := [false, false, true], m_cache := [120, 0, 0] } ∧
    CachedReaderImpl.ReadNextPoint exampleFile exampleHeader
        { m_ifs := 140, m_size := 3, m_current := 3, m_point_reader := some exampleHeader,
          m_cache_size := 3, m_cache_start_position := 2, m_cache_read_position := 2,
          m_mask := [false, false, true], m_cache := [120, 0, 0] } =
      .ok (exampleFile (recordPos exampleHeader 1))
        { m_ifs := 140, m_size := 3, m_current := 3, m_point_reader := some exampleHeader,
          m_cache_size := 3, m_cache_start_position := 2, m_cache_read_position := 3,
          m_mask := [false, false, true], m_cache := [120, 0, 0] } ∧
    exampleFile (recordPos exampleHeader 1) ≠ exampleFile (recordPos exampleHeader 2) := by
  decide

/-- C9: whenever `CachedReaderImpl::ReadPointAt(n)` returns a point, it leaves
`m_cache_read_position == n`, and the immediately following
`CachedReaderImpl::ReadNextPoint` returns that same point again, changing
nothing but `m_cache_read_position`, which becomes `n + 1`. -/
theorem CachedReaderImpl.ReadPointAt_then_ReadNextPoint {P : Type} (file : Nat → P) (n : Nat)
    (header : Header) (s s1 : CachedReaderImpl P) (p : P)
    (h : CachedReaderImpl.ReadPointAt file n header s = .ok p s1) :
    s1.m_cache_read_position = n ∧
    CachedReaderImpl.ReadNextPoint file header s1 =
      .ok p { s1 with m_cache_read_position := n + 1 } := by
  unfold CachedReaderImpl.ReadPointAt at h
  split_ifs at h with h1 h2
  cases hc : CachedReaderImpl.ReadCachedPoint file n header s with
  | ok q t =>
    simp only [hc, Outcome.bind_ok] at h
    simp at h
    obtain ⟨rfl, rfl⟩ := h
    obtain ⟨k1, k2, k3⟩ := CachedReaderImpl.ReadCachedPoint_ok file n header s t q hc
    have hlt : n < t.m_size := k3 (by omega)
    have hne : ¬ (n = t.m_size) := by omega
    refine ⟨rfl, ?_⟩
    simp only [CachedReaderImpl.ReadNextPoint, hne, if_false, CachedReaderImpl.ReadCachedPoint, k1,
      k2, Outcome.bind_ok]
  | threw e t => simp [hc] at h
  | undefined => simp [hc] at h

theorem CachedReaderImpl.ReadPointAt_then_ReadNextPoint_witness :
    CachedReaderImpl.ReadPointAt exampleFile 1 exampleHeader exampleCache =
      .ok 120
        { m_ifs := 160, m_size := 3, m_current := 3, m_point_reader := some exampleHeader,
          m_cache_size := 2, m_cache_start_position := 1, m_cache_read_position := 1,
          m_mask := [false, true, true], m_cache := [120, 140] } ∧
    ({ m_ifs := 160, m_size := 3, m_current := 3, m_point_reader := some exampleHeader,
       m_cache_size := 2, m_cache_start_position := 1, m_cache_read_position := 1,
       m_mask := [false, true, true], m_cache := [120, 140] } :
      CachedReaderImpl Nat).m_cache_read_position = 1 ∧
    CachedReaderImpl.ReadNextPoint exampleFile exampleHeader
        { m_ifs := 160, m_size := 3, m_current := 3, m_point_reader := some exampleHeader,
          m_cache_size := 2, m_cache_start_position := 1, m_cache_read_position := 1,
          m_mask := [false, true, true], m_cache := [120, 140] } =
      .ok 120
        { m_ifs := 160, m_size := 3, m_current := 3, m_point_reader := some exampleHeader,
          m_cache_size := 2, m_cache_start_position := 1, m_cache_read_position := 1 + 1,
          m_mask := [false, true, true], m_cache := [120, 140] } :=
  ⟨by decide,
    CachedReaderImpl.ReadPointAt_then_ReadNextPoint exampleFile 1 exampleHeader exampleCache
      { m_ifs := 160, m_size := 3, m_current := 3, m_point_reader := some exampleHeader,
        m_cache_size := 2, m_cache_start_position := 1, m_cache_read_position := 1,
        m_mask := [false, true, true], m_cache := [120, 140] } 120 (by decide)⟩

/-- C10 as stated fails: on the example file, after one point has been read
through the cache, `Seek(0)` ends with the stream at the data offset and
`m_current = 1`, `Reset` with the stream at 0 and `m_current = 0`; on a file
without records `Seek(0)` throws `std::out_of_range` and `Reset` returns. -/
theorem CachedReaderImpl.Seek_zero_differs_from_Reset :
    (((CachedReaderImpl.opened exampleHeader 2).bind fun _ s =>
        CachedReaderImpl.ReadNextPoint exampleFile exampleHeader s).bind fun _ s =>
        CachedReaderImpl.Seek 0 exampleHeader s) =
      .ok ()
        { m_ifs := 100, m_size := 3, m_current := 1, m_point_reader := some exampleHeader,
          m_cache_size := 2, m_cache_start_position := 0, m_cache_read_position := 0,
          m_mask := [false, false, false], m_cache := [100, 120] } ∧
    (((CachedReaderImpl.opened exampleHeader 2).bind fun _ s =>
        CachedReaderImpl.ReadNextPoint exampleFile exampleHeader s).bind fun _ s =>
        CachedReaderImpl.Reset exampleHeader s) =
      .ok ()
        { m_ifs := 0, m_size := 3, m_current := 0, m_point_reader := some exampleHeader,
          m_cache_size := 2, m_cache_start_position := 0, m_cache_read_position := 0,
          m_mask := [false, false, false], m_cache := [100, 120] } ∧
    ((CachedReaderImpl.opened emptyHeader 2).bind fun _ (s : CachedReaderImpl Nat) =>
        CachedReaderImpl.Seek 0 emptyHeader s) =
      .threw .out_of_range
        { m_ifs := 0, m_size := 0, m_current := 0, m_point_reader := some emptyHeader,
          m_cache_size := 0, m_cache_start_position := 0, m_cache_read_position := 0,
          m_mask := [], m_cache := [] } ∧
    ((CachedReaderImpl.opened emptyHeader 2).bind fun _ (s : CachedReaderImpl Nat) =>
        CachedReaderImpl.Reset emptyHeader s) =
      .ok ()
        { m_ifs := 0, m_size := 0, m_current := 0, m_point_reader := some emptyHeader,
          m_cache_size := 0, m_cache_start_position := 0, m_cache_read_position := 0,
          m_mask := [], m_cache := [] } := by
  decide

/-- C10 amended: when `Reset` returns the state `r`, `Seek(0)` from the same
state is that reset followed by the positional seek to record 0: on a file
without records it throws `std::out_of_range`, otherwise it returns; in both
cases the mask, the window start, the cache, the cache size, `m_size` and the
decoder are those of `r`, `m_cache_read_position` is 0, and when it returns the
stream stands at the data offset. -/
theorem CachedReaderImpl.Seek_zero_after_Reset {P : Type} (header : Header)
    (s r : CachedReaderImpl P) (hr : CachedReaderImpl.Reset header s = .ok () r) :
    r.m_size = header.pointRecordsCount ∧
    ∃ cur, CachedReaderImpl.Seek 0 header s =
      if header.pointRecordsCount = 0 then
        .threw .out_of_range { r with m_cache_read_position := 0 }
      else
        .ok () { r with m_cache_read_position := 0, m_ifs := header.dataOffset, m_current := cur } := by
  have hsize : r.m_size = header.pointRecordsCount := by
    unfold CachedReaderImpl.Reset at hr
    split_ifs at hr
    · dsimp only at hr
      split at hr
      · simp at hr
      · simp at hr
        rw [← hr]
        rfl
    · simp at hr
      rw [← hr]
      rfl
  refine ⟨hsize, 1, ?_⟩
  by_cases h0 : header.pointRecordsCount = 0
  · have h0' : r.m_size = 0 := by rw [hsize, h0]
    simp [CachedReaderImpl.Seek, hr, CachedReaderImpl.base, ReaderImpl.Seek, h0, h0']
  · have h1 : ¬ (r.m_size = 0) := by rw [hsize]; exact h0
    have h2 : ¬ (r.m_size < 0) := by omega
    simp [CachedReaderImpl.Seek, hr, CachedReaderImpl.base, ReaderImpl.Seek, h0, h1,
      recordPos]

theorem CachedReaderImpl.Seek_zero_after_Reset_witness :
    CachedReaderImpl.Reset exampleHeader
        ({ m_ifs := 140, m_size := 3, m_current := 2, m_point_reader := some exampleHeader,
           m_cache_size := 2, m_cache_start_position := 0, m_cache_read_position := 1,
           m_mask := [true, true, false], m_cache := [100, 120] } : CachedReaderImpl Nat) =
      .ok ()
        { m_ifs := 0, m_size := 3, m_current := 0, m_point_reader := some exampleHeader,
          m_cache_size := 2, m_cache_start_position := 0, m_cache_read_position := 0,
          m_mask := [false, false, false], m_cache := [100, 120] } ∧
    (3 = exampleHeader.pointRecordsCount ∧
     ∃ cur, CachedReaderImpl.Seek 0 exampleHeader
        ({ m_ifs := 140, m_size := 3, m_current := 2, m_point_reader := some exampleHeader,
           m_cache_size := 2, m_cache_start_position := 0, m_cache_read_position := 1,
           m_mask := [true, true, false], m_cache := [100, 120] } : CachedReaderImpl Nat) =
      if exampleHeader.pointRecordsCount = 0 then
        .threw .out_of_range
          { m_ifs := 0, m_size := 3, m_current := 0, m_point_reader := some exampleHeader,
            m_cache_size := 2, m_cache_start_position := 0, m_cache_read_position := 0,
            m_mask := [false, false, false], m_cache := [100, 120] }
      else
        .ok ()
          { m_ifs := exampleHeader.dataOffset, m_size := 3, m_current := cur,
            m_point_reader := some exampleHeader,
            m_cache_size := 2, m_cache_start_position := 0, m_cache_read_position := 0,
            m_mask := [false, false, false], m_cache := [100, 120] }) :=
  ⟨by decide,
   CachedReaderImpl.Seek_zero_after_Reset exampleHeader
    { m_ifs := 140, m_size := 3, m_current := 2, m_point_reader := some exampleHeader,
      m_cache_size := 2, m_cache_start_position := 0, m_cache_read_position := 1,
      m_mask := [true, true, false], m_cache := [100, 120] }
    { m_ifs := 0, m_size := 3, m_current := 0, m_point_reader := some exampleHeader,
      m_cache_size := 2, m_cache_start_position := 0, m_cache_read_position := 0,
      m_mask := [false, false, false], m_cache := [100, 120] } (by decide)⟩

/-! ## Frame lemmas: what the operations never change -/

theorem Outcome.Forall_bind {σ α β : Type} (r : Outcome σ α) (f : α → σ → Outcome σ β)
    (q1 q2 : σ → Prop) (h1 : r.Forall q1) (h2 : ∀ a s, q1 s → (f a s).Forall q2)
    (h3 : ∀ s, q1 s → q2 s) : (r.bind f).Forall q2 := by
  cases r with
  | ok a s => exact h2 a s h1
  | threw e s => exact h3 s h1
  | undefined => trivial

theorem Outcome.Forall_mono {σ α : Type} (r : Outcome σ α) (q1 q2 : σ → Prop)
    (h1 : r.Forall q1) (h3 : ∀ s, q1 s → q2 s) : r.Forall q2 := by
  cases r with
  | ok a s => exact h3 s h1
  | threw e s => exact h3 s h1
  | undefined => trivial

theorem BaseFrame_refl (header : Header) (b : ReaderImpl) : BaseFrame header b b :=
  ⟨Or.inl rfl, fun _ => rfl, fun h => h⟩

theorem BaseFrame_trans {header : Header} {a b c : ReaderImpl} (h1 : BaseFrame header a b)
    (h2 : BaseFrame header b c) : BaseFrame header a c := by
  obtain ⟨a1, a2, a3⟩ := h1
  obtain ⟨b1, b2, b3⟩ := h2
  refine ⟨?_, ?_, fun h => b3 (a3 h)⟩
  · rcases b1 with h | h
    · rw [h]; exact a1
    · exact Or.inr h
  · intro h
    have := a2 h
    rw [← this]
    exact b2 (by rw [this]; exact h)

theorem Frame_refl {P : Type} (header : Header) (s : CachedReaderImpl P) : Frame header s s :=
  ⟨rfl, rfl, rfl, BaseFrame_refl header _⟩

theorem Frame_trans {P : Type} {header : Header} {a b c : CachedReaderImpl P}
    (h1 : Frame header a b) (h2 : Frame header b c) : Frame header a c := by
  obtain ⟨a1, a2, a3, a4⟩ := h1
  obtain ⟨b1, b2, b3, b4⟩ := h2
  exact ⟨b1.trans a1, b2.trans a2, b3.trans a3, BaseFrame_trans a4 b4⟩

/-- `ReaderImpl::Reset` is inside the base frame. -/
theorem ReaderImpl.Reset_frame (header : Header) (b : ReaderImpl) :
    BaseFrame header b (ReaderImpl.Reset header b) := by
  refine ⟨Or.inr rfl, ?_, fun _ => Nat.zero_le _⟩
  intro h
  cases hr : b.m_point_reader with
  | none => simp [hr] at h
  | some bound => simp [ReaderImpl.Reset, hr]

/-- `ReaderImpl::ReadNextPoint` is inside the base frame, returning or throwing. -/
theorem ReaderImpl.ReadNextPoint_frame {P : Type} (file : Nat → P) (header : Header)
    (b : ReaderImpl) :
    (ReaderImpl.ReadNextPoint file header b).Forall (BaseFrame header b) := by
  have key : ∀ b0 : ReaderImpl, BaseFrame header b b0 →
      (if b0.m_current < b0.m_size then
          (ReaderImpl.pointRead file b0).bind fun point s =>
            Outcome.ok point { s with m_current := s.m_current + 1 }
        else if b0.m_current = b0.m_size then Outcome.threw Exn.out_of_range b0
        else Outcome.threw Exn.runtime_error b0).Forall (BaseFrame header b) := by
    intro b0 hb0
    split_ifs with h1 h2
    · cases hr : b0.m_point_reader with
      | none => simp [ReaderImpl.pointRead, hr, Outcome.Forall]
      | some bound =>
        simp only [ReaderImpl.pointRead, hr, Outcome.bind_ok, Outcome.Forall]
        refine BaseFrame_trans hb0 ⟨Or.inl rfl, fun _ => hr.symm, fun _ => ?_⟩
        show b0.m_current + 1 ≤ b0.m_size
        omega
    · exact hb0
    · exact hb0
  unfold ReaderImpl.ReadNextPoint
  by_cases h0 : 0 = b.m_current
  · simp only [if_pos h0]
    exact key { b with m_ifs := header.dataOffset } ⟨Or.inl rfl, fun _ => rfl, fun h => h⟩
  · simp only [if_neg h0]
    exact key b (BaseFrame_refl header b)

/-- `ReaderImpl::ReadPointAt` is inside the base frame, returning or throwing. -/
theorem ReaderImpl.ReadPointAt_frame {P : Type} (file : Nat → P) (n : Nat) (header : Header)
    (b : ReaderImpl) :
    (ReaderImpl.ReadPointAt file n header b).Forall (BaseFrame header b) := by
  unfold ReaderImpl.ReadPointAt
  split_ifs with h1 h2
  · exact BaseFrame_refl header b
  · exact BaseFrame_refl header b
  · cases hr : b.m_point_reader with
    | none => simp [ReaderImpl.pointRead, hr, Outcome.Forall]
    | some bound =>
      simp only [ReaderImpl.pointRead, hr, Outcome.Forall]
      exact ⟨Or.inl rfl, fun _ => hr.symm, fun h => h⟩

/-- `ReaderImpl::Seek` is inside the base frame, returning or throwing. -/
theorem ReaderImpl.Seek_frame (n : Nat) (header : Header) (b : ReaderImpl) :
    (ReaderImpl.Seek n header b).Forall (BaseFrame header b) := by
  unfold ReaderImpl.Seek
  split_ifs with h1 h2
  · exact BaseFrame_refl header b
  · exact BaseFrame_refl header b
  · refine ⟨Or.inl rfl, fun _ => rfl, fun _ => ?_⟩
    show n + 1 ≤ b.m_size
    omega

/-- A base member function inside the base frame is inside the frame of the cache reader. -/
theorem CachedReaderImpl.base_frame {P α : Type} (header : Header)
    (f : ReaderImpl → Outcome ReaderImpl α) (s : CachedReaderImpl P)
    (h : (f s.toReaderImpl).Forall (BaseFrame header s.toReaderImpl)) :
    (CachedReaderImpl.base f s).Forall (Frame header s) := by
  unfold CachedReaderImpl.base
  cases hf : f s.toReaderImpl with
  | ok a b =>
    rw [hf] at h
    exact ⟨rfl, rfl, rfl, h⟩
  | threw e b =>
    rw [hf] at h
    exact ⟨rfl, rfl, rfl, h⟩
  | undefined => trivial

/-- The clearing loop keeps the length of the mask. -/
theorem clearMask_length (start : Nat) (count : Nat) :
    ∀ (i : Nat) (mask mask' : List Bool), clearMask start count i mask = some mask' →
      mask'.length = mask.length := by
  induction count with
  | zero =>
    intro i mask mask' h
    simp [clearMask] at h
    rw [h]
  | succ count ih =>
    intro i mask mask' h
    unfold clearMask at h
    split_ifs at h
    have := ih _ _ _ h
    rw [this, List.length_set]

/-- `CachedReaderImpl::Reset` is inside the frame. -/
theorem CachedReaderImpl.Reset_cframe {P : Type} (header : Header) (s : CachedReaderImpl P) :
    (CachedReaderImpl.Reset header s).Forall (Frame header s) := by
  unfold CachedReaderImpl.Reset
  split_ifs with h
  · dsimp only
    split
    · trivial
    · rename_i mask hc
      exact ⟨rfl, rfl, clearMask_length _ _ _ _ _ hc, ReaderImpl.Reset_frame header _⟩
  · exact ⟨rfl, rfl, rfl, ReaderImpl.Reset_frame header _⟩

/-- `CachedReaderImpl::Seek` is inside the frame, returning or throwing. -/
theorem CachedReaderImpl.Seek_cframe {P : Type} (n : Nat) (header : Header)
    (s : CachedReaderImpl P) :
    (CachedReaderImpl.Seek n header s).Forall (Frame header s) := by
  unfold CachedReaderImpl.Seek
  refine Outcome.Forall_bind _ _ (Frame header s) (Frame header s) ?_ ?_ (fun _ h => h)
  · split_ifs
    · exact CachedReaderImpl.Reset_cframe header s
    · exact Frame_refl header s
  · intro _ t ht
    refine Outcome.Forall_mono _ (Frame header { t with m_cache_read_position := n }) _
      (CachedReaderImpl.base_frame header _ _ (ReaderImpl.Seek_frame n header _)) ?_
    intro u hu
    exact Frame_trans ht (Frame_trans ⟨rfl, rfl, rfl, BaseFrame_refl header _⟩ hu)

/-- The filling loop is inside the frame, returning or throwing. -/
theorem fillCache_frame {P : Type} (file : Nat → P) (header : Header) (count : Nat) :
    ∀ (i : Nat) (s : CachedReaderImpl P),
      (fillCache file header count i s).Forall (Frame header s) := by
  induction count with
  | zero =>
    intro i s
    exact Frame_refl header s
  | succ count ih =>
    intro i s
    unfold fillCache
    split_ifs with hm
    · have hset : Frame header s { s with m_mask := s.m_mask.set s.m_current true } :=
        ⟨rfl, rfl, by simp, BaseFrame_refl header _⟩
      have hb := CachedReaderImpl.base_frame header (ReaderImpl.ReadNextPoint file header)
        { s with m_mask := s.m_mask.set s.m_current true }
        (ReaderImpl.ReadNextPoint_frame file header _)
      dsimp only
      generalize CachedReaderImpl.base (ReaderImpl.ReadNextPoint file header)
          { s with m_mask := s.m_mask.set s.m_current true } = r at hb ⊢
      cases r with
      | ok p t =>
        dsimp only
        split_ifs with hi
        · refine Outcome.Forall_mono _ _ _ (ih (i + 1) { t with m_cache := t.m_cache.set i p }) ?_
          intro u hu
          refine Frame_trans hset (Frame_trans hb (Frame_trans ?_ hu))
          exact ⟨rfl, by simp, rfl, BaseFrame_refl header _⟩
        · trivial
      | threw e t =>
        cases e with
        | out_of_range => exact Frame_trans hset hb
        | runtime_error => exact Frame_trans hset hb
      | undefined => trivial
    · trivial

/-- `CachedReaderImpl::CacheData` is inside the frame, returning or throwing. -/
theorem CachedReaderImpl.CacheData_cframe {P : Type} (file : Nat → P) (position : Nat)
    (header : Header) (s : CachedReaderImpl P) :
    (CachedReaderImpl.CacheData file position header s).Forall (Frame header s) := by
  unfold CachedReaderImpl.CacheData
  dsimp only
  split
  · trivial
  · rename_i mask hc
    have hlen := clearMask_length _ _ _ _ _ hc
    have h1 : Frame header s { s with m_cache_start_position := position, m_mask := mask } :=
      ⟨rfl, rfl, hlen, BaseFrame_refl header _⟩
    refine Outcome.Forall_bind _ _ (Frame header s) (Frame header s) ?_ ?_ (fun _ h => h)
    · split_ifs with hcur
      · cases hs : CachedReaderImpl.Seek position header
            { s with m_cache_start_position := position, m_mask := mask } with
        | ok u t =>
          have hf := CachedReaderImpl.Seek_cframe position header
            { s with m_cache_start_position := position, m_mask := mask }
          rw [hs] at hf
          have hlt := CachedReaderImpl.Seek_returns_lt position header _ t hs
          obtain ⟨f1, f2, f3, f4, f5, f6⟩ := Frame_trans h1 hf
          exact ⟨f1, f2, f3, f4, f5, fun _ => Nat.le_of_lt hlt⟩
        | threw e t =>
          have hf := CachedReaderImpl.Seek_cframe position header
            { s with m_cache_start_position := position, m_mask := mask }
          rw [hs] at hf
          exact Frame_trans h1 hf
        | undefined => trivial
      · exact h1
    · intro _ t ht
      refine Outcome.Forall_mono _ _ _
        (fillCache_frame file header _ 0 { t with m_cache_read_position := position }) ?_
      intro u hu
      exact Frame_trans ht (Frame_trans ⟨rfl, rfl, rfl, BaseFrame_refl header _⟩ hu)

/-- `CachedReaderImpl::ReadCachedPoint` is inside the frame, returning or throwing. -/
theorem CachedReaderImpl.ReadCachedPoint_cframe {P : Type} (file : Nat → P) (position : Nat)
    (header : Header) (s : CachedReaderImpl P) :
    (CachedReaderImpl.ReadCachedPoint file position header s).Forall (Frame header s) := by
  unfold CachedReaderImpl.ReadCachedPoint
  dsimp only
  split
  · trivial
  · split
    · trivial
    · exact ⟨rfl, rfl, rfl, BaseFrame_refl header _⟩
  · refine Outcome.Forall_bind _ _ (Frame header s) (Frame header s)
      (CachedReaderImpl.CacheData_cframe file position header s) ?_ (fun _ h => h)
    intro _ t ht
    have hthrew : ∀ e, (Outcome.threw e t : Outcome (CachedReaderImpl P) P).Forall
        (Frame header s) := fun _ => ht
    have hok : ∀ p, (Outcome.ok p t : Outcome (CachedReaderImpl P) P).Forall
        (Frame header s) := fun _ => ht
    repeat' (first | exact hthrew _ | exact hok _ | trivial | split)

/-- `CachedReaderImpl::ReadNextPoint` is inside the frame, returning or throwing. -/
theorem CachedReaderImpl.ReadNextPoint_cframe {P : Type} (file : Nat → P) (header : Header)
    (s : CachedReaderImpl P) :
    (CachedReaderImpl.ReadNextPoint file header s).Forall (Frame header s) := by
  unfold CachedReaderImpl.ReadNextPoint
  split_ifs
  · exact Frame_refl header s
  · refine Outcome.Forall_bind _ _ (Frame header s) (Frame header s)
      (CachedReaderImpl.ReadCachedPoint_cframe file _ header s) ?_ (fun _ h => h)
    intro _ t ht
    exact Frame_trans ht ⟨rfl, rfl, rfl, BaseFrame_refl header _⟩

/-- `CachedReaderImpl::ReadPointAt` is inside the frame, returning or throwing. -/
theorem CachedReaderImpl.ReadPointAt_cframe {P : Type} (file : Nat → P) (n : Nat)
    (header : Header) (s : CachedReaderImpl P) :
    (CachedReaderImpl.ReadPointAt file n header s).Forall (Frame header s) := by
  unfold CachedReaderImpl.ReadPointAt
  split_ifs
  · exact Frame_refl header s
  · exact Frame_refl header s
  · refine Outcome.Forall_bind _ _ (Frame header s) (Frame header s)
      (CachedReaderImpl.ReadCachedPoint_cframe file _ header s) ?_ (fun _ h => h)
    intro _ t ht
    exact Frame_trans ht ⟨rfl, rfl, rfl, BaseFrame_refl header _⟩

/-- Every public operation is inside the frame, returning or throwing. -/
theorem CachedReaderImpl.apply_frame {P : Type} (file : Nat → P) (header : Header)
    (op : CachedOp) (s : CachedReaderImpl P) :
    (CachedReaderImpl.apply file header op s).Forall (Frame header s) := by
  cases op with
  | readNext =>
    exact Outcome.Forall_bind _ _ _ _ (CachedReaderImpl.ReadNextPoint_cframe file header s)
      (fun _ _ h => h) (fun _ h => h)
  | readAt n =>
    exact Outcome.Forall_bind _ _ _ _ (CachedReaderImpl.ReadPointAt_cframe file n header s)
      (fun _ _ h => h) (fun _ h => h)
  | seek n => exact CachedReaderImpl.Seek_cframe n header s
  | reset => exact CachedReaderImpl.Reset_cframe header s

/-! ## Reachable states and the refill on a miss -/

theorem Shape_of_Frame {P : Type} (header : Header) (cap : Nat) (s s' : CachedReaderImpl P)
    (hs : Shape header cap s) (hf : Frame header s s') : Shape header cap s' := by
  obtain ⟨a1, a2, a3, a4, a5⟩ := hs
  obtain ⟨f1, f2, f3, f4, f5, -⟩ := hf
  refine ⟨?_, ?_, f1.trans a3, f2.trans a4, f3.trans a5⟩
  · rcases f4 with h | h
    · exact h.trans a1
    · exact h
  · rw [f5 a2]; exact a2

/-- Every reachable state has the sizes fixed by `ReadHeader`. -/
theorem Shape_of_Reachable {P : Type} [Inhabited P] (file : Nat → P) (header : Header)
    (size : Nat) (s : CachedReaderImpl P) (h : Reachable file header size s) :
    Shape header (clampedCacheSize header size) s := by
  induction h with
  | opened s hs =>
    rw [CachedReaderImpl.opened_eq] at hs
    simp only [Outcome.finalState, Option.some.injEq] at hs
    subst hs
    exact ⟨rfl, rfl, rfl, by simp, by simp⟩
  | step op s s' _ hstep ih =>
    have hf := CachedReaderImpl.apply_frame file header op s
    cases hr : CachedReaderImpl.apply file header op s with
    | ok u t =>
      rw [hr] at hf hstep
      simp only [Outcome.finalState, Option.some.injEq] at hstep
      subst hstep
      exact Shape_of_Frame header _ s _ ih hf
    | threw e t =>
      rw [hr] at hf hstep
      simp only [Outcome.finalState, Option.some.injEq] at hstep
      subst hstep
      exact Shape_of_Frame header _ s _ ih hf
    | undefined =>
      rw [hr] at hstep
      simp [Outcome.finalState] at hstep

/-- With a decoder and `m_current < m_size`, `ReaderImpl::ReadNextPoint` returns. -/
theorem ReaderImpl.ReadNextPoint_returns {P : Type} (file : Nat → P) (header : Header)
    (b : ReaderImpl) (hr : b.m_point_reader.isSome) (hlt : b.m_current < b.m_size) :
    ∃ p pos, ReaderImpl.ReadNextPoint file header b =
      .ok p { b with m_ifs := pos, m_current := b.m_current + 1 } := by
  obtain ⟨bound, hbound⟩ := Option.isSome_iff_exists.mp hr
  unfold ReaderImpl.ReadNextPoint
  by_cases h0 : 0 = b.m_current
  · simp only [if_pos h0]
    exact ⟨_, _, by simp [ReaderImpl.pointRead, hbound, hlt]; exact ⟨rfl, rfl⟩⟩
  · simp only [if_neg h0]
    exact ⟨_, _, by simp [ReaderImpl.pointRead, hbound, hlt]; exact ⟨rfl, rfl⟩⟩

/-- The filling loop on a reader with a decoder, enough records, a mask as
long as the file and enough room returns, keeps the window start and the
lengths, keeps every mark, and marks the indices it visited. -/
theorem fillCache_marks {P : Type} (file : Nat → P) (header : Header) (count : Nat) :
    ∀ (i : Nat) (s : CachedReaderImpl P), s.m_point_reader.isSome →
      s.m_current + count ≤ s.m_size → s.m_size ≤ s.m_mask.length →
      i + count ≤ s.m_cache.length →
      ∃ s' : CachedReaderImpl P, fillCache file header count i s = .ok () s' ∧
        s'.m_cache_start_position = s.m_cache_start_position ∧
        s'.m_cache.length = s.m_cache.length ∧
        (∀ j : Nat, s.m_mask[j]? = some true → s'.m_mask[j]? = some true) ∧
        (∀ j : Nat, s.m_current ≤ j → j < s.m_current + count → s'.m_mask[j]? = some true) := by
  induction count with
  | zero =>
    intro i s _ _ _ _
    refine ⟨s, rfl, rfl, rfl, ?_, ?_⟩
    · intro j h
      exact h
    · intro j h1 h2
      omega
  | succ count ih =>
    intro i s hr hk hm hc
    have hlt : s.m_current < s.m_size := by omega
    have hmk : s.m_current < s.m_mask.length := by omega
    have hci : i < s.m_cache.length := by omega
    obtain ⟨p, pos, hread⟩ := ReaderImpl.ReadNextPoint_returns file header s.toReaderImpl hr hlt
    obtain ⟨s', h1, h2, h3, h4, h5⟩ :=
      ih (i + 1)
        { s with m_mask := s.m_mask.set s.m_current true
                 m_cache := s.m_cache.set i p
                 m_ifs := pos
                 m_current := s.m_current + 1 }
        hr (by simp; omega) (by simp; omega) (by simp; omega)
    have hself : (s.m_mask.set s.m_current true)[s.m_current]? = some true := by
      rw [List.getElem?_set, if_pos rfl, if_pos hmk]
    refine ⟨s', ?_, h2, ?_, ?_, ?_⟩
    · simp only [fillCache, hmk, if_true, CachedReaderImpl.base, hread, List.length_set, hci]
      exact h1
    · simpa using h3
    · intro j hj
      apply h4
      show (s.m_mask.set s.m_current true)[j]? = some true
      rw [List.getElem?_set]
      by_cases hjc : s.m_current = j
      · rw [if_pos hjc, if_pos hmk]
      · rw [if_neg hjc]; exact hj
    · intro j hj1 hj2
      by_cases hjc : s.m_current = j
      · subst hjc
        exact h4 _ hself
      · apply h5
        · show s.m_current + 1 ≤ j
          omega
        · show j < s.m_current + 1 + count
          omega

/-- The seek that `CacheData` issues after it has moved the window start to
`n`: on a state with the sizes of an opened reader it returns and leaves the
window start at `n`. -/
theorem CachedReaderImpl.Seek_at_window_start {P : Type} (n : Nat) (header : Header) (cap : Nat)
    (s : CachedReaderImpl P) (hN : header.pointRecordsCount < 2 ^ 64)
    (hcapN : cap ≤ header.pointRecordsCount) (hs : Shape header cap s)
    (hn : n < header.pointRecordsCount) (hstart : s.m_cache_start_position = n) :
    ∃ t : CachedReaderImpl P, CachedReaderImpl.Seek n header s = .ok () t ∧
      t.m_cache_start_position = n := by
  obtain ⟨a1, a2, a3, a4, a5⟩ := hs
  have h1 : ¬ (header.pointRecordsCount = n) := by omega
  have h2 : ¬ (header.pointRecordsCount < n) := by omega
  by_cases h0 : n < 1
  · have hn0 : n = 0 := by omega
    subst hn0
    have hsub : sizeSub header.pointRecordsCount 0 = header.pointRecordsCount :=
      sizeSub_of_le _ _ (Nat.zero_le _) hN
    have hmark : max cap (min cap header.pointRecordsCount) = cap := by omega
    obtain ⟨mask1, c1, -, -⟩ := clearMask_spec 0 cap 0 s.m_mask (by omega)
    have hpos : s.m_mask.length > 0 := by omega
    refine ⟨{ s with
        toReaderImpl :=
          { ReaderImpl.Reset header s.toReaderImpl with
            m_ifs := recordPos header 0, m_current := 0 + 1 }
        m_mask := mask1, m_cache_start_position := 0, m_cache_read_position := 0 }, ?_, rfl⟩
    have hr : CachedReaderImpl.Reset header s = .ok ()
        { s with toReaderImpl := ReaderImpl.Reset header s.toReaderImpl
                 m_mask := mask1, m_cache_start_position := 0, m_cache_read_position := 0 } := by
      simp only [CachedReaderImpl.Reset, if_pos hpos, a3, hstart, hsub, hmark, c1]
    have hsz : (ReaderImpl.Reset header s.toReaderImpl).m_size = header.pointRecordsCount := rfl
    simp only [CachedReaderImpl.Seek, if_pos h0, hr, Outcome.bind_ok, CachedReaderImpl.base,
      ReaderImpl.Seek, hsz, if_neg h1, if_neg h2]
  · refine ⟨{ s with
        toReaderImpl := { s.toReaderImpl with m_ifs := recordPos header n, m_current := n + 1 }
        m_cache_read_position := n }, ?_, hstart⟩
    simp only [CachedReaderImpl.Seek, if_neg h0, Outcome.bind_ok, CachedReaderImpl.base,
      ReaderImpl.Seek, a1, if_neg h1, if_neg h2]

/-- A refill whose clearing loop stays inside the mask returns, leaves the
window start at the requested index, marks that index and keeps the cache
length. -/
theorem CachedReaderImpl.CacheData_refill {P : Type} (file : Nat → P) (index : Nat)
    (header : Header) (cap : Nat) (s : CachedReaderImpl P) (mask1 : List Bool)
    (hN : header.pointRecordsCount < 2 ^ 64) (hcap : 0 < cap)
    (hcapN : cap ≤ header.pointRecordsCount) (hs : Shape header cap s)
    (hi : index < header.pointRecordsCount)
    (hc : clearMask s.m_cache_start_position cap 0 s.m_mask = some mask1) :
    ∃ s1 : CachedReaderImpl P, CachedReaderImpl.CacheData file index header s = .ok () s1 ∧
      s1.m_cache_start_position = index ∧ s1.m_mask[index]? = some true ∧
      s1.m_cache.length = cap := by
  have hs' := hs
  obtain ⟨a1, a2, a3, a4, a5⟩ := hs
  have hlen := clearMask_length _ _ _ _ _ hc
  have hsub : sizeSub header.pointRecordsCount index = header.pointRecordsCount - index :=
    sizeSub_of_le _ _ (by omega) hN
  have hleft : min s.m_cache_size (sizeSub header.pointRecordsCount index) =
      min cap (header.pointRecordsCount - index) := by rw [a3, hsub]
  have hmark : max s.m_cache_size (min cap (header.pointRecordsCount - index)) = cap := by
    rw [a3]; omega
  have hshape1 : Shape header cap
      { s with m_cache_start_position := index, m_mask := mask1 } :=
    ⟨a1, a2, a3, a4, hlen.trans a5⟩
  by_cases hcur : s.m_current ≠ index
  · obtain ⟨t, ht, hts⟩ := CachedReaderImpl.Seek_at_window_start index header cap
      { s with m_cache_start_position := index, m_mask := mask1 } hN hcapN hshape1 hi rfl
    have hf := CachedReaderImpl.Seek_cframe index header
      { s with m_cache_start_position := index, m_mask := mask1 }
    rw [ht] at hf
    obtain ⟨b1, b2, b3, b4, b5⟩ := Shape_of_Frame header cap _ t hshape1 hf
    obtain ⟨s1, f1, f2, f3, -, f5⟩ := fillCache_marks file header
      (min cap (header.pointRecordsCount - index)) 0
      { t with m_current := index, m_cache_read_position := index }
      b2 (by show index + _ ≤ t.m_size; rw [b1]; omega)
      (by show t.m_size ≤ t.m_mask.length; rw [b1, b5])
      (by show 0 + _ ≤ t.m_cache.length; rw [b4]; omega)
    refine ⟨s1, ?_, f2.trans hts, ?_, f3.trans b4⟩
    · simp only [CachedReaderImpl.CacheData, hleft, hmark, hc, if_pos hcur, ht,
        Outcome.bind_ok]
      exact f1
    · apply f5
      · exact Nat.le_refl _
      · show index < index + _
        omega
  · have hcur' : s.m_current = index := by
      by_contra h
      exact hcur h
    obtain ⟨s1, f1, f2, f3, -, f5⟩ := fillCache_marks file header
      (min cap (header.pointRecordsCount - index)) 0
      { s with m_cache_start_position := index, m_mask := mask1,
               m_cache_read_position := index }
      a2 (by show s.m_current + _ ≤ s.m_size; rw [a1, hcur']; omega)
      (by show s.m_size ≤ mask1.length; rw [a1, hlen, a5])
      (by show 0 + _ ≤ s.m_cache.length; rw [a4]; omega)
    refine ⟨s1, ?_, f2, ?_, f3.trans a4⟩
    · simp only [CachedReaderImpl.CacheData, hleft, hmark, hc, if_neg hcur, Outcome.bind_ok]
      exact f1
    · apply f5
      · show s.m_current ≤ index
        omega
      · show index < s.m_current + _
        omega

/-! ## The claims on the cache state and the cursors -/

/-- C11: on the example file with cache size 2, three sequential reads leave
the window at `[2, 3)`; the clearing loop of `CachedReaderImpl::Reset` then
runs over `m_mask[2]` and `m_mask[3]` on a mask of three entries, so the reset
is undefined and yields no state. -/
theorem CachedReaderImpl.Reset_after_pass_example :
    CachedReaderImpl.opened exampleHeader 2 = .ok exampleHeader exampleCache ∧
    CachedReaderImpl.applyAll exampleFile exampleHeader [.readNext, .readNext, .readNext]
        exampleCache =
      some { m_ifs := 160, m_size := 3, m_current := 3, m_point_reader := some exampleHeader,
             m_cache_size := 2, m_cache_start_position := 2, m_cache_read_position := 3,
             m_mask := [false, false, true], m_cache := [140, 120] } ∧
    CachedReaderImpl.Reset exampleHeader
        ({ m_ifs := 160, m_size := 3, m_current := 3, m_point_reader := some exampleHeader,
           m_cache_size := 2, m_cache_start_position := 2, m_cache_read_position := 3,
           m_mask := [false, false, true], m_cache := [140, 120] } : CachedReaderImpl Nat) =
      .undefined ∧
    clearMask 2 2 0 [false, false, true] = none := by
  decide

/-- C12: a second `ReadHeader` on the opened example cache reader (three
records) appends three more entries to the mask, which then has six. -/
theorem CachedReaderImpl.ReadHeader_twice_example :
    CachedReaderImpl.opened exampleHeader 2 = .ok exampleHeader exampleCache ∧
    CachedReaderImpl.ReadHeader exampleHeader exampleCache =
      .ok exampleHeader
        { m_ifs := 0, m_size := 3, m_current := 0, m_point_reader := some exampleHeader,
          m_cache_size := 2, m_cache_start_position := 0, m_cache_read_position := 0,
          m_mask := [false, false, false, false, false, false], m_cache := [0, 0] } := by
  decide

/-- C13: ten records, cache size 3: `ReadPointAt(8)` leaves the window at
`[8, 10)`; the following `ReadPointAt(0)` clears `m_mask[8 + i]` for
`i = 0, 1, 2`, and index 10 is outside the mask of ten entries, so the call is
undefined. -/
theorem CachedReaderImpl.clear_out_of_bounds_example :
    ((CachedReaderImpl.opened tenHeader 3).bind fun _ s =>
        CachedReaderImpl.ReadPointAt exampleFile 8 tenHeader s) =
      .ok (exampleFile (recordPos tenHeader 8))
        { m_ifs := 300, m_size := 10, m_current := 10, m_point_reader := some tenHeader,
          m_cache_size := 3, m_cache_start_position := 8, m_cache_read_position := 8,
          m_mask := [false, false, false, false, false, false, false, false, true, true],
          m_cache := [260, 280, 0] } ∧
    CachedReaderImpl.ReadPointAt exampleFile 0 tenHeader
        { m_ifs := 300, m_size := 10, m_current := 10, m_point_reader := some tenHeader,
          m_cache_size := 3, m_cache_start_position := 8, m_cache_read_position := 8,
          m_mask := [false, false, false, false, false, false, false, false, true, true],
          m_cache := [260, 280, 0] } = .undefined ∧
    clearMask 8 3 0 [false, false, false, false, false, false, false, false, true, true] =
      none ∧
    clearMask 8 2 0 [false, false, false, false, false, false, false, false, true, true] =
      some [false, false, false, false, false, false, false, false, false, false] := by
  decide

/-- C14: on the example file, after `Seek(1)` and `ReadPointAt(2)` the mask
marks index 2 and the window starts at 2, but the cache entry of index 2 holds
record 1, not record 2. -/
theorem CachedReaderImpl.marked_entry_wrong_record_example :
    CachedReaderImpl.applyAll exampleFile exampleHeader [.seek 1, .readAt 2] exampleCache =
      some { m_ifs := 140, m_size := 3, m_current := 3, m_point_reader := some exampleHeader,
             m_cache_size := 2, m_cache_start_position := 2, m_cache_read_position := 2,
             m_mask := [false, false, true], m_cache := [120, 0] } ∧
    ([false, false, true] : List Bool)[2]? = some true ∧
    ([120, 0] : List Nat)[2 - 2]? = some (exampleFile (recordPos exampleHeader 1)) ∧
    exampleFile (recordPos exampleHeader 1) ≠ exampleFile (recordPos exampleHeader 2) := by
  decide

/-- C15: on the example file with cache size 2, `ReadPointAt(2)` leaves the
window at `[2, 3)`; `CacheData(0)` from that state clears `m_mask[2]` and
`m_mask[3]` on a mask of three entries and is undefined, so no window is
established. -/
theorem CachedReaderImpl.CacheData_after_last_window_example :
    CachedReaderImpl.applyAll exampleFile exampleHeader [.readAt 2] exampleCache =
      some { m_ifs := 160, m_size := 3, m_current := 3, m_point_reader := some exampleHeader,
             m_cache_size := 2, m_cache_start_position := 2, m_cache_read_position := 2,
             m_mask := [false, false, true], m_cache := [140, 0] } ∧
    CachedReaderImpl.CacheData exampleFile 0 exampleHeader
        { m_ifs := 160, m_size := 3, m_current := 3, m_point_reader := some exampleHeader,
          m_cache_size := 2, m_cache_start_position := 2, m_cache_read_position := 2,
          m_mask := [false, false, true], m_cache := [140, 0] } = .undefined := by
  decide

/-- C16 as stated fails: on a file of ten records, `ReadNextPoint`,
`ReadPointAt(5)`, `ReadNextPoint` after a reset returns record 6 from the
second sequential read and ends with `m_current = 2` and the stream at the
start of record 7, not of record 2. -/
theorem ReaderImpl.cursor_after_ReadPointAt_example :
    ((ReaderImpl.ReadNextPoint exampleFile tenHeader
        (ReaderImpl.Reset tenHeader (ReaderImpl.construct 0))).bind fun _ s =>
      (ReaderImpl.ReadPointAt exampleFile 5 tenHeader s).bind fun _ s =>
        ReaderImpl.ReadNextPoint exampleFile tenHeader s) =
      .ok (exampleFile (recordPos tenHeader 6))
        { m_ifs := recordPos tenHeader 7, m_size := 10, m_current := 2,
          m_point_reader := some tenHeader } ∧
    recordPos tenHeader 7 ≠ recordPos tenHeader 2 := by
  decide

/-- C16 amended: after `ReaderImpl::Reset` and `k` calls of
`ReaderImpl::ReadNextPoint` with nothing else in between (`1 <= k <= N`), all
`k` calls return, `m_current` is `k`, the number of records consumed, and the
stream stands at `dataOffset + m_current * recordLength`. -/
theorem ReaderImpl.cursor_after_sequential_reads {P : Type} (file : Nat → P) (header : Header)
    (s : ReaderImpl) (k : Nat)
    (hb : ∀ bound, s.m_point_reader = some bound →
      bound.dataRecordLength = header.dataRecordLength)
    (hk0 : 0 < k) (hk : k ≤ header.pointRecordsCount) :
    ∃ points s', ReaderImpl.readNextTimes file header k (ReaderImpl.Reset header s) =
        .ok points s' ∧
      points.length = k ∧ s'.m_current = k ∧
      s'.m_ifs = header.dataOffset + s'.m_current * header.dataRecordLength := by
  obtain ⟨bound, hbound, hl⟩ : ∃ bound, (ReaderImpl.Reset header s).m_point_reader = some bound ∧
      bound.dataRecordLength = header.dataRecordLength := by
    cases hr : s.m_point_reader with
    | none => exact ⟨header, by simp [ReaderImpl.Reset, hr], rfl⟩
    | some b => exact ⟨b, by simp [ReaderImpl.Reset, hr], hb b hr⟩
  obtain ⟨s', h1, h2, -, -, h5⟩ :=
    ReaderImpl.readNextTimes_sync file header bound hl k (ReaderImpl.Reset header s) hbound
      (by simp [ReaderImpl.Reset]; omega) (by simp [ReaderImpl.Reset])
  have hcur : s'.m_current = k := by simpa [ReaderImpl.Reset] using h2
  refine ⟨_, s', h1, by simp, hcur, ?_⟩
  rw [h5 (by omega), recordPos, Nat.add_comm]

theorem ReaderImpl.cursor_after_sequential_reads_witness :
    (∀ bound, (ReaderImpl.construct 5).m_point_reader = some bound →
      bound.dataRecordLength = tenHeader.dataRecordLength) ∧
    0 < 4 ∧ 4 ≤ tenHeader.pointRecordsCount ∧
    ∃ points s', ReaderImpl.readNextTimes exampleFile tenHeader 4
        (ReaderImpl.Reset tenHeader (ReaderImpl.construct 5)) = .ok points s' ∧
      points.length = 4 ∧ s'.m_current = 4 ∧
      s'.m_ifs = tenHeader.dataOffset + s'.m_current * tenHeader.dataRecordLength :=
  ⟨by intro bound h; simp [ReaderImpl.construct] at h, by decide, by decide,
    ReaderImpl.cursor_after_sequential_reads exampleFile tenHeader (ReaderImpl.construct 5) 4
      (by intro bound h; simp [ReaderImpl.construct] at h) (by decide) (by decide)⟩

/-- C17: `m_current <= m_size` holds after construction and is preserved by
every member function of `ReaderImpl` and of `CachedReaderImpl` (`Reset`,
`ReadHeader`, `ReadNextPoint`, `ReadPointAt`, `Seek`, and the internal
`CacheData` and `ReadCachedPoint`), whether the call returns or throws; so
`ReaderImpl::ReadNextPoint` never throws its `m_current > m_size`
`std::runtime_error`. -/
theorem cursor_stays_in_range {P : Type} [Inhabited P] (file : Nat → P)
    (header parsed : Header) (n pos size : Nat) (b : ReaderImpl) (s : CachedReaderImpl P)
    (hb : InRange b) (hs : InRange s.toReaderImpl) :
    InRange (ReaderImpl.construct pos) ∧
    InRange (CachedReaderImpl.construct pos size : CachedReaderImpl P).toReaderImpl ∧
    InRange (ReaderImpl.Reset header b) ∧
    (ReaderImpl.ReadHeader parsed b).Forall InRange ∧
    (ReaderImpl.ReadNextPoint file header b).Forall InRange ∧
    (ReaderImpl.ReadPointAt file n header b).Forall InRange ∧
    (ReaderImpl.Seek n header b).Forall InRange ∧
    (∀ b', ReaderImpl.ReadNextPoint file header b ≠ .threw .runtime_error b') ∧
    (CachedReaderImpl.Reset header s).Forall (fun s' => InRange s'.toReaderImpl) ∧
    (CachedReaderImpl.ReadHeader parsed s).Forall (fun s' => InRange s'.toReaderImpl) ∧
    (CachedReaderImpl.ReadNextPoint file header s).Forall (fun s' => InRange s'.toReaderImpl) ∧
    (CachedReaderImpl.ReadPointAt file n header s).Forall (fun s' => InRange s'.toReaderImpl) ∧
    (CachedReaderImpl.Seek n header s).Forall (fun s' => InRange s'.toReaderImpl) ∧
    (CachedReaderImpl.CacheData file n header s).Forall (fun s' => InRange s'.toReaderImpl) ∧
    (CachedReaderImpl.ReadCachedPoint file n header s).Forall
      (fun s' => InRange s'.toReaderImpl) := by
  have base : ∀ (hdr : Header) (b' : ReaderImpl), BaseFrame hdr b b' → InRange b' :=
    fun _ _ h => h.2.2 hb
  have cached : ∀ (hdr : Header) (s' : CachedReaderImpl P), Frame hdr s s' →
      InRange s'.toReaderImpl := fun _ _ h => h.2.2.2.2.2 hs
  refine ⟨Nat.le_refl 0, Nat.le_refl 0, Nat.zero_le _, Nat.zero_le _, ?_, ?_, ?_, ?_, ?_, ?_,
    ?_, ?_, ?_, ?_, ?_⟩
  · exact Outcome.Forall_mono _ _ _ (ReaderImpl.ReadNextPoint_frame file header b) (base header)
  · exact Outcome.Forall_mono _ _ _ (ReaderImpl.ReadPointAt_frame file n header b) (base header)
  · exact Outcome.Forall_mono _ _ _ (ReaderImpl.Seek_frame n header b) (base header)
  · intro b' h
    unfold ReaderImpl.ReadNextPoint at h
    have hb' : b.m_current ≤ b.m_size := hb
    by_cases h0 : 0 = b.m_current
    · simp only [if_pos h0] at h
      split_ifs at h with h1 h2
      · cases hr : b.m_point_reader with
        | none => simp [ReaderImpl.pointRead, hr] at h
        | some bound => simp [ReaderImpl.pointRead, hr] at h
      · cases h
      · exact h2 (Nat.le_antisymm hb' (Nat.le_of_not_lt h1))
    · simp only [if_neg h0] at h
      split_ifs at h with h1 h2
      · cases hr : b.m_point_reader with
        | none => simp [ReaderImpl.pointRead, hr] at h
        | some bound => simp [ReaderImpl.pointRead, hr] at h
      · cases h
      · exact h2 (Nat.le_antisymm hb' (Nat.le_of_not_lt h1))
  · exact Outcome.Forall_mono _ _ _ (CachedReaderImpl.Reset_cframe header s) (cached header)
  · unfold CachedReaderImpl.ReadHeader
    refine Outcome.Forall_bind _ _ _ _ (CachedReaderImpl.Reset_cframe parsed s) ?_ (cached parsed)
    intro _ t ht
    exact cached parsed t ht
  · exact Outcome.Forall_mono _ _ _ (CachedReaderImpl.ReadNextPoint_cframe file header s)
      (cached header)
  · exact Outcome.Forall_mono _ _ _ (CachedReaderImpl.ReadPointAt_cframe file n header s)
      (cached header)
  · exact Outcome.Forall_mono _ _ _ (CachedReaderImpl.Seek_cframe n header s) (cached header)
  · exact Outcome.Forall_mono _ _ _ (CachedReaderImpl.CacheData_cframe file n header s)
      (cached header)
  · exact Outcome.Forall_mono _ _ _ (CachedReaderImpl.ReadCachedPoint_cframe file n header s)
      (cached header)

theorem cursor_stays_in_range_witness :
    InRange (ReaderImpl.Reset exampleHeader (ReaderImpl.construct 0)) ∧
    InRange exampleCache.toReaderImpl ∧
    InRange (ReaderImpl.construct 0) ∧
    InRange (CachedReaderImpl.construct 0 2 : CachedReaderImpl Nat).toReaderImpl ∧
    InRange (ReaderImpl.Reset exampleHeader
      (ReaderImpl.Reset exampleHeader (ReaderImpl.construct 0))) ∧
    (ReaderImpl.ReadHeader exampleHeader
      (ReaderImpl.Reset exampleHeader (ReaderImpl.construct 0))).Forall InRange ∧
    (ReaderImpl.ReadNextPoint exampleFile exampleHeader
      (ReaderImpl.Reset exampleHeader (ReaderImpl.construct 0))).Forall InRange ∧
    (ReaderImpl.ReadPointAt exampleFile 1 exampleHeader
      (ReaderImpl.Reset exampleHeader (ReaderImpl.construct 0))).Forall InRange ∧
    (ReaderImpl.Seek 1 exampleHeader
      (ReaderImpl.Reset exampleHeader (ReaderImpl.construct 0))).Forall InRange ∧
    (∀ b', ReaderImpl.ReadNextPoint exampleFile exampleHeader
      (ReaderImpl.Reset exampleHeader (ReaderImpl.construct 0)) ≠ .threw .runtime_error b') ∧
    (CachedReaderImpl.Reset exampleHeader exampleCache).Forall
      (fun s' => InRange s'.toReaderImpl) ∧
    (CachedReaderImpl.ReadHeader exampleHeader exampleCache).Forall
      (fun s' => InRange s'.toReaderImpl) ∧
    (CachedReaderImpl.ReadNextPoint exampleFile exampleHeader exampleCache).Forall
      (fun s' => InRange s'.toReaderImpl) ∧
    (CachedReaderImpl.ReadPointAt exampleFile 1 exampleHeader exampleCache).Forall
      (fun s' => InRange s'.toReaderImpl) ∧
    (CachedReaderImpl.Seek 1 exampleHeader exampleCache).Forall
      (fun s' => InRange s'.toReaderImpl) ∧
    (CachedReaderImpl.CacheData exampleFile 1 exampleHeader exampleCache).Forall
      (fun s' => InRange s'.toReaderImpl) ∧
    (CachedReaderImpl.ReadCachedPoint exampleFile 1 exampleHeader exampleCache).Forall
      (fun s' => InRange s'.toReaderImpl) :=
  ⟨Nat.zero_le _, Nat.zero_le _,
    cursor_stays_in_range exampleFile exampleHeader exampleHeader 1 0 2
      (ReaderImpl.Reset exampleHeader (ReaderImpl.construct 0)) exampleCache
      (Nat.zero_le _) (Nat.zero_le _)⟩

/-- C18: when `m_mask[index]` is set and `m_cache[index - m_cache_start_position]`
exists, `ReadCachedPoint(index)` returns that cache entry and changes nothing
but `m_cache_read_position`, which becomes `index`: the mask, the cache, the
window start, `m_current`, `m_size` and the stream position are as before. -/
theorem CachedReaderImpl.ReadCachedPoint_hit {P : Type} (file : Nat → P) (index : Nat)
    (header : Header) (s : CachedReaderImpl P) (p : P)
    (hm : s.m_mask[index]? = some true) (hw : s.m_cache_start_position ≤ index)
    (hc : s.m_cache[index - s.m_cache_start_position]? = some p) :
    CachedReaderImpl.ReadCachedPoint file index header s =
      .ok p { s with m_cache_read_position := index } := by
  simp only [CachedReaderImpl.ReadCachedPoint, hm, cacheAt_sub _ _ _ hw, hc]

theorem CachedReaderImpl.ReadCachedPoint_hit_witness :
    ([false, true, true] : List Bool)[2]? = some true ∧ 1 ≤ 2 ∧
    ([120, 140] : List Nat)[2 - 1]? = some 140 ∧
    CachedReaderImpl.ReadCachedPoint exampleFile 2 exampleHeader
        { m_ifs := 160, m_size := 3, m_current := 3, m_point_reader := some exampleHeader,
          m_cache_size := 2, m_cache_start_position := 1, m_cache_read_position := 1,
          m_mask := [false, true, true], m_cache := [120, 140] } =
      .ok 140
        { m_ifs := 160, m_size := 3, m_current := 3, m_point_reader := some exampleHeader,
          m_cache_size := 2, m_cache_start_position := 1, m_cache_read_position := 2,
          m_mask := [false, true, true], m_cache := [120, 140] } :=
  ⟨by decide, by decide, by decide,
    CachedReaderImpl.ReadCachedPoint_hit exampleFile 2 exampleHeader
      { m_ifs := 160, m_size := 3, m_current := 3, m_point_reader := some exampleHeader,
        m_cache_size := 2, m_cache_start_position := 1, m_cache_read_position := 1,
        m_mask := [false, true, true], m_cache := [120, 140] } 140
      (by decide) (by decide) (by decide)⟩

/-- C19: on the example file (three records), `Seek(7)` throws
`std::runtime_error` and leaves `m_cache_read_position = 7`, above `m_size`;
the following `ReadNextPoint` reads `m_mask[7]` on a mask of three entries and
is undefined. -/
theorem CachedReaderImpl.Seek_beyond_then_ReadNextPoint_example :
    CachedReaderImpl.Seek 7 exampleHeader exampleCache =
      .threw .runtime_error
        { m_ifs := 0, m_size := 3, m_current := 0, m_point_reader := some exampleHeader,
          m_cache_size := 2, m_cache_start_position := 0, m_cache_read_position := 7,
          m_mask := [false, false, false], m_cache := [0, 0] } ∧
    CachedReaderImpl.ReadNextPoint exampleFile exampleHeader
        { m_ifs := 0, m_size := 3, m_current := 0, m_point_reader := some exampleHeader,
          m_cache_size := 2, m_cache_start_position := 0, m_cache_read_position := 7,
          m_mask := [false, false, false], m_cache := [0, 0] } = .undefined ∧
    ([false, false, false] : List Bool)[7]? = none := by
  decide

/-- C20: in every state reachable from `ReadHeader` (record count below
`2^31`) and for every `index` below the record count whose mask entry is not
set, `ReadCachedPoint(index)` never ends in an exception, so none of its
`std::runtime_error` branches is taken; whenever its single `CacheData` call
returns, `m_mask[index]` is set, the recomputed cache position
`index - m_cache_start_position` is 0 and below the cache length, and
`ReadCachedPoint` returns from that very state; and `CacheData` does return
whenever the previous window's clear span lies inside the mask. -/
theorem CachedReaderImpl.ReadCachedPoint_miss_no_inconsistency {P : Type} [Inhabited P]
    (file : Nat → P) (header : Header) (size index : Nat) (s : CachedReaderImpl P)
    (hN : header.pointRecordsCount < 2 ^ 31) (hreach : Reachable file header size s)
    (hi : index < header.pointRecordsCount) (hmiss : s.m_mask[index]? = some false) :
    (∀ e s', CachedReaderImpl.ReadCachedPoint file index header s ≠ .threw e s') ∧
    (∀ s1, CachedReaderImpl.CacheData file index header s = .ok () s1 →
      s1.m_mask[index]? = some true ∧
      (index : Int) - (s1.m_cache_start_position : Int) = 0 ∧
      0 < s1.m_cache.length ∧
      ∃ p, CachedReaderImpl.ReadCachedPoint file index header s = .ok p s1) ∧
    (s.m_cache_start_position + s.m_cache_size ≤ header.pointRecordsCount →
      ∃ s1, CachedReaderImpl.CacheData file index header s = .ok () s1) := by
  have hN' : header.pointRecordsCount < 2 ^ 64 := by omega
  have hshape := Shape_of_Reachable file header size s hreach
  have hcap : 0 < clampedCacheSize header size := clampedCacheSize_pos header size (by omega)
  have hcapN := clampedCacheSize_le header size
  have a3 : s.m_cache_size = clampedCacheSize header size := hshape.2.2.1
  have a5 : s.m_mask.length = header.pointRecordsCount := hshape.2.2.2.2
  cases hc : clearMask s.m_cache_start_position (clampedCacheSize header size) 0 s.m_mask with
  | none =>
    have hsub : sizeSub header.pointRecordsCount index = header.pointRecordsCount - index :=
      sizeSub_of_le _ _ (by omega) hN'
    have hleft : min s.m_cache_size (sizeSub header.pointRecordsCount index) =
        min (clampedCacheSize header size) (header.pointRecordsCount - index) := by
      rw [a3, hsub]
    have hmark : max s.m_cache_size
        (min (clampedCacheSize header size) (header.pointRecordsCount - index)) =
        clampedCacheSize header size := by
      rw [a3]; omega
    have hcd : CachedReaderImpl.CacheData file index header s = .undefined := by
      simp only [CachedReaderImpl.CacheData, hleft, hmark, hc]
    have hrc : CachedReaderImpl.ReadCachedPoint file index header s = .undefined := by
      simp only [CachedReaderImpl.ReadCachedPoint, hmiss, hcd, Outcome.bind_undefined]
    refine ⟨?_, ?_, ?_⟩
    · intro e s' h
      rw [hrc] at h
      cases h
    · intro s1 h
      rw [hcd] at h
      cases h
    · intro hin
      obtain ⟨mask1, c1, -, -⟩ := clearMask_spec s.m_cache_start_position
        (clampedCacheSize header size) 0 s.m_mask (by rw [a5, ← a3]; omega)
      rw [hc] at c1
      cases c1
  | some mask1 =>
    obtain ⟨s1, d1, d2, d3, d4⟩ := CachedReaderImpl.CacheData_refill file index header
      (clampedCacheSize header size) s mask1 hN' hcap hcapN hshape hi hc
    have hlen : 0 < s1.m_cache.length := by omega
    obtain ⟨p, hp⟩ : ∃ p, s1.m_cache[0]? = some p :=
      ⟨s1.m_cache[0], List.getElem?_eq_getElem hlen⟩
    have hzero : (index : Int) - (s1.m_cache_start_position : Int) = 0 := by
      rw [d2]; omega
    have hrc : CachedReaderImpl.ReadCachedPoint file index header s = .ok p s1 := by
      have hnot : ¬ (0 > s1.m_cache.length) := by omega
      simp only [CachedReaderImpl.ReadCachedPoint, hmiss, d1, Outcome.bind_ok, hzero,
        lt_self_iff_false, if_false, d3, Int.toNat_zero, hnot, cacheAt, le_refl, if_true, hp]
    refine ⟨?_, ?_, ?_⟩
    · intro e s' h
      rw [hrc] at h
      cases h
    · intro s1' h
      rw [d1] at h
      cases h
      exact ⟨d3, hzero, hlen, p, hrc⟩
    · intro _
      exact ⟨s1, d1⟩

theorem CachedReaderImpl.ReadCachedPoint_miss_no_inconsistency_witness :
    exampleHeader.pointRecordsCount < 2 ^ 31 ∧
    Reachable exampleFile exampleHeader 2
      ({ m_ifs := 140, m_size := 3, m_current := 2, m_point_reader := some exampleHeader,
         m_cache_size := 2, m_cache_start_position := 0, m_cache_read_position := 1,
         m_mask := [true, true, false], m_cache := [100, 120] } : CachedReaderImpl Nat) ∧
    2 < exampleHeader.pointRecordsCount ∧
    ([true, true, false] : List Bool)[2]? = some false ∧
    ((∀ e s', CachedReaderImpl.ReadCachedPoint exampleFile 2 exampleHeader
        ({ m_ifs := 140, m_size := 3, m_current := 2, m_point_reader := some exampleHeader,
           m_cache_size := 2, m_cache_start_position := 0, m_cache_read_position := 1,
           m_mask := [true, true, false], m_cache := [100, 120] } : CachedReaderImpl Nat) ≠
        .threw e s') ∧
     (∀ s1, CachedReaderImpl.CacheData exampleFile 2 exampleHeader
        ({ m_ifs := 140, m_size := 3, m_current := 2, m_point_reader := some exampleHeader,
           m_cache_size := 2, m_cache_start_position := 0, m_cache_read_position := 1,
           m_mask := [true, true, false], m_cache := [100, 120] } : CachedReaderImpl Nat) =
        .ok () s1 →
      s1.m_mask[2]? = some true ∧
      ((2 : Nat) : Int) - (s1.m_cache_start_position : Int) = 0 ∧
      0 < s1.m_cache.length ∧
      ∃ p, CachedReaderImpl.ReadCachedPoint exampleFile 2 exampleHeader
        ({ m_ifs := 140, m_size := 3, m_current := 2, m_point_reader := some exampleHeader,
           m_cache_size := 2, m_cache_start_position := 0, m_cache_read_position := 1,
           m_mask := [true, true, false], m_cache := [100, 120] } : CachedReaderImpl Nat) =
        .ok p s1) ∧
     ((0 : Nat) + 2 ≤ exampleHeader.pointRecordsCount →
      ∃ s1, CachedReaderImpl.CacheData exampleFile 2 exampleHeader
        ({ m_ifs := 140, m_size := 3, m_current := 2, m_point_reader := some exampleHeader,
           m_cache_size := 2, m_cache_start_position := 0, m_cache_read_position := 1,
           m_mask := [true, true, false], m_cache := [100, 120] } : CachedReaderImpl Nat) =
        .ok () s1)) :=
  ⟨by decide,
    Reachable.step .readNext exampleCache _ (Reachable.opened exampleCache (by decide))
      (by decide),
    by decide, by decide,
    CachedReaderImpl.ReadCachedPoint_miss_no_inconsistency exampleFile exampleHeader 2 2
      { m_ifs := 140, m_size := 3, m_current := 2, m_point_reader := some exampleHeader,
        m_cache_size := 2, m_cache_start_position := 0, m_cache_read_position := 1,
        m_mask := [true, true, false], m_cache := [100, 120] }
      (by decide)
      (Reachable.step .readNext exampleCache _ (Reachable.opened exampleCache (by decide))
        (by decide))
      (by decide) (by decide)⟩

end liblas.detail
